import Mathlib

/-!
The fon9 Worker (single-consumer execution engine), the fon9 SendBuffer, `PkContFeeder`,
`FieldCharsL` and the trading day of `f9twf::ExgMcSystem`.

A shallow embedding of `fon9/Worker.hpp`; the parts on `fon9/io/SendBuffer.hpp`,
`fon9/PkCont.hpp`, `fon9/seed/FieldCharsL.cpp` and `f9twf/ExgMcGroup.cpp` have their own
introductions further down.

* `WorkerState` is the `enum class WorkerState`; its order is the order of the enumerators.
* `WorkContentBase` is the class of the same name: the worker state, the async-taking latch and
  the id of the thread that is inside the controller (`0` is `ThreadId::IdType{}`).
* `WorkContentController σ` is the template parameter of `Worker<>`: the caller-supplied
  controller.  `σ` is the controller's own part of the locked content.  A controller member
  function receives the locked content and hands it back; what happens while the controller has
  released the lock (work done, other threads calling `AddWork` or `Dispose`) is part of the
  content it hands back.
* The `do ... while` loop of `Worker::TakeCallLocked` is run with a bound on the number of
  iterations (`fuel`); a run that has used the bound up has `ret = none`.  Every run records the
  controller invocations it made and whether each `assert` it passed held; a failed `assert`
  does not stop the run (as in a build with `NDEBUG`).
* The lock itself is not part of the model: every function here is the code that runs with the
  lock held, so `assert(ctx.owns_lock())` has no counterpart.
-/

namespace fon9

/-- The `enum class WorkerState`. -/
inductive WorkerState where
  | Sleeping
  | Ringing
  | Working
  | Disposing
  | DisposeWorking
  | Disposed
  deriving DecidableEq, Repr

/-- Underlying value of an enumerator. -/
def WorkerState.toNat : WorkerState → Nat
  | .Sleeping => 0
  | .Ringing => 1
  | .Working => 2
  | .Disposing => 3
  | .DisposeWorking => 4
  | .Disposed => 5

instance : LE WorkerState := ⟨fun a b => a.toNat ≤ b.toNat⟩

instance : LT WorkerState := ⟨fun a b => a.toNat < b.toNat⟩

instance (a b : WorkerState) : Decidable (a ≤ b) := inferInstanceAs (Decidable (a.toNat ≤ b.toNat))

instance (a b : WorkerState) : Decidable (a < b) := inferInstanceAs (Decidable (a.toNat < b.toNat))

/-- The type `ThreadId::IdType`; the value-initialised id `ThreadId::IdType{}` is `0`. -/
abbrev ThreadIdType := Nat

/-- The class `WorkContentBase`. -/
structure WorkContentBase where
  State_ : WorkerState
  IsAsyncTaking_ : Bool
  TakingCallThreadId_ : ThreadIdType
  deriving DecidableEq, Repr

namespace WorkContentBase

/-- `WorkerState GetWorkerState() const`. -/
def GetWorkerState (w : WorkContentBase) : WorkerState :=
  w.State_

/-- `void SetWorkerState(WorkerState st)`. -/
def SetWorkerState (w : WorkContentBase) (st : WorkerState) : WorkContentBase :=
  { w with State_ := st }

/-- `bool SetToRinging()`: the returned flag and the content afterwards. -/
def SetToRinging (w : WorkContentBase) : Bool × WorkContentBase :=
  if w.State_ = WorkerState.Sleeping then
    (true, { w with State_ := WorkerState.Ringing })
  else
    (false, w)

/-- `bool SetToDisposing()`: the returned flag and the content afterwards. -/
def SetToDisposing (w : WorkContentBase) : Bool × WorkContentBase :=
  if w.State_ ≥ WorkerState.Disposing then
    (false, w)
  else
    (true, { w with State_ :=
      if w.State_ = WorkerState.Working then WorkerState.DisposeWorking
      else WorkerState.Disposing })

/-- `bool SetToAsyncTaking()`: the returned flag and the content afterwards. -/
def SetToAsyncTaking (w : WorkContentBase) : Bool × WorkContentBase :=
  if w.IsAsyncTaking_ then
    (false, w)
  else
    (true, { w with IsAsyncTaking_ := true })

/-- `void SetAsyncTaken()`: whether its `assert` held, and the content afterwards. -/
def SetAsyncTaken (w : WorkContentBase) : Bool × WorkContentBase :=
  (w.IsAsyncTaking_ == true, { w with IsAsyncTaking_ := false })

/-- `bool IsTakingCall() const`. -/
def IsTakingCall (w : WorkContentBase) : Bool :=
  w.TakingCallThreadId_ != 0

/-- `bool InTakingCallThread() const`, called on the thread whose id is `tid`. -/
def InTakingCallThread (tid : ThreadIdType) (w : WorkContentBase) : Bool :=
  w.TakingCallThreadId_ == tid

/-- `void SetTakingCallThreadId()` on thread `tid`: whether its `assert` held, and the content
afterwards. -/
def SetTakingCallThreadId (tid : ThreadIdType) (w : WorkContentBase) : Bool × WorkContentBase :=
  (w.TakingCallThreadId_ == 0, { w with TakingCallThreadId_ := tid })

/-- `void ClrTakingCallThreadId()` on thread `tid`: whether its `assert` held, and the content
afterwards. -/
def ClrTakingCallThreadId (tid : ThreadIdType) (w : WorkContentBase) : Bool × WorkContentBase :=
  (w.TakingCallThreadId_ == tid, { w with TakingCallThreadId_ := 0 })

end WorkContentBase

/-- The template parameter `WorkContentController` of `Worker<>`.  Each member receives the
controller's own content `σ` and the locked `WorkContentBase`, and hands both back. -/
structure WorkContentController (σ : Type) where
  Dispose : σ → WorkContentBase → WorkContentBase × σ
  AddWork : σ → WorkContentBase → WorkContentBase × σ
  TakeCall : σ → WorkContentBase → WorkerState × WorkContentBase × σ
  TakeNap : σ → WorkContentBase → WorkContentBase × σ

/-- One invocation of the controller's `TakeCall`: the content it was entered with, the value it
returned and the content it handed back. -/
structure Invocation where
  before : WorkContentBase
  result : WorkerState
  after : WorkContentBase
  deriving DecidableEq, Repr

/-- What one `Worker::TakeCallLocked` did: the returned value (`none` when the loop bound was used
up), the content and the controller content at that moment, the controller invocations in order,
and whether every `assert` passed so far held. -/
structure TakeCallRun (σ : Type) where
  ret : Option WorkerState
  ctx : WorkContentBase
  ctl : σ
  calls : List Invocation
  assertsOk : Bool

namespace Worker

variable {σ : Type}

/-- `Worker::Dispose`: forwards to the controller's `Dispose` under the lock. -/
def Dispose (c : WorkContentController σ) (s : σ) (ctx : WorkContentBase) :
    WorkContentBase × σ :=
  c.Dispose s ctx

/-- `Worker::AddWork`: forwards to the controller's `AddWork` under the lock. -/
def AddWork (c : WorkContentController σ) (s : σ) (ctx : WorkContentBase) :
    WorkContentBase × σ :=
  c.AddWork s ctx

/-- The `do ... while` loop of `Worker::TakeCallLocked` on thread `tid`, at most `fuel`
iterations.  `tr` and `ok` are the invocations made and the outcome of the asserts so far. -/
def TakeCallLoop (c : WorkContentController σ) (tid : ThreadIdType) :
    Nat → WorkContentBase → σ → List Invocation → Bool → TakeCallRun σ
  | 0, ctx, s, tr, ok => ⟨none, ctx, s, tr, ok⟩
  | fuel + 1, ctx, s, tr, ok =>
    let r := c.TakeCall s ctx
    let res := r.1
    let ctx1 := r.2.1
    let s1 := r.2.2
    let tr1 := tr ++ [⟨ctx, res, ctx1⟩]
    let cur := ctx1.GetWorkerState
    if cur ≥ WorkerState.Disposed then
      let k := ctx1.ClrTakingCallThreadId tid
      ⟨some cur, k.2, s1, tr1, ok && k.1⟩
    else
      let ok1 := ok && (cur == WorkerState.Working || cur == WorkerState.DisposeWorking)
      if res = WorkerState.Working ∨ res = WorkerState.DisposeWorking then
        TakeCallLoop c tid fuel ctx1 s1 tr1 ok1
      else
        let k := (ctx1.SetWorkerState res).ClrTakingCallThreadId tid
        ⟨some res, k.2, s1, tr1, ok1 && k.1⟩

/-- `WorkerState TakeCallLocked(ContentLocker&& ctx)` on thread `tid`. -/
def TakeCallLocked (c : WorkContentController σ) (tid : ThreadIdType) (fuel : Nat) (s : σ)
    (ctx : WorkContentBase) : TakeCallRun σ :=
  let res := ctx.GetWorkerState
  match res with
  | WorkerState.Working => ⟨some res, ctx, s, [], true⟩
  | WorkerState.Disposed => ⟨some res, ctx, s, [], true⟩
  | WorkerState.DisposeWorking => ⟨some res, ctx, s, [], true⟩
  | WorkerState.Sleeping =>
    let k := (ctx.SetWorkerState WorkerState.Working).SetTakingCallThreadId tid
    TakeCallLoop c tid fuel k.2 s [] k.1
  | WorkerState.Ringing =>
    let k := (ctx.SetWorkerState WorkerState.Working).SetTakingCallThreadId tid
    TakeCallLoop c tid fuel k.2 s [] k.1
  | WorkerState.Disposing =>
    let k := (ctx.SetWorkerState WorkerState.DisposeWorking).SetTakingCallThreadId tid
    TakeCallLoop c tid fuel k.2 s [] k.1

/-- `WorkerState TakeCall()`: takes the lock and runs `TakeCallLocked`. -/
def TakeCall (c : WorkContentController σ) (tid : ThreadIdType) (fuel : Nat) (s : σ)
    (ctx : WorkContentBase) : TakeCallRun σ :=
  TakeCallLocked c tid fuel s ctx

/-- The content with which the first controller invocation of a `TakeCallLocked` on thread `tid`
is entered, when the entry state is `Sleeping`, `Ringing` or `Disposing`. -/
def workEntry (tid : ThreadIdType) (ctx : WorkContentBase) : WorkContentBase :=
  { ctx with
    State_ :=
      if ctx.State_ = WorkerState.Disposing then WorkerState.DisposeWorking
      else WorkerState.Working
    TakingCallThreadId_ := tid }

/-- The record of the invocation of the controller's `TakeCall` entered with `ctx` and `s`. -/
def invocationAt (c : WorkContentController σ) (s : σ) (ctx : WorkContentBase) : Invocation :=
  ⟨ctx, (c.TakeCall s ctx).1, (c.TakeCall s ctx).2.1⟩

/-- The first `n` successive invocations of the controller's `TakeCall`, the first entered with
`ctx` and `s`, each later one with what the one before handed back. -/
def successiveCalls (c : WorkContentController σ) : Nat → WorkContentBase → σ → List Invocation
  | 0, _, _ => []
  | n + 1, ctx, s =>
    let r := c.TakeCall s ctx
    ⟨ctx, r.1, r.2.1⟩ :: successiveCalls c n r.2.1 r.2.2

/-- Whether the session of the loop, started with `ctx` and `s`, ends within `n` controller
invocations: one of them hands the state back as `Disposed`, or returns a value other than
`Working` and `DisposeWorking`. -/
def sessionEndsWithin (c : WorkContentController σ) : Nat → WorkContentBase → σ → Bool
  | 0, _, _ => false
  | n + 1, ctx, s =>
    let r := c.TakeCall s ctx
    if r.2.1.State_ = WorkerState.Disposed then true
    else if r.1 = WorkerState.Working ∨ r.1 = WorkerState.DisposeWorking then
      sessionEndsWithin c n r.2.1 r.2.2
    else true

end Worker

/-- What one `Worker::TakeNap` did: the returned value (`none` when a `TakeCallLocked` used its
loop bound up), the first `TakeCallLocked`, the number of invocations of the controller's
`TakeNap`, the second `TakeCallLocked` when there was one, and the content and the controller
content at the end. -/
structure TakeNapRun (σ : Type) where
  ret : Option WorkerState
  first : TakeCallRun σ
  naps : Nat
  second : Option (TakeCallRun σ)
  ctx : WorkContentBase
  ctl : σ

namespace Worker

variable {σ : Type}

/-- `WorkerState TakeNap(ArgsT&&... args)` on thread `tid`; each `TakeCallLocked` has the loop
bound `fuel`. -/
def TakeNap (c : WorkContentController σ) (tid : ThreadIdType) (fuel : Nat) (s : σ)
    (ctx : WorkContentBase) : TakeNapRun σ :=
  let r1 := TakeCallLocked c tid fuel s ctx
  match r1.ret with
  | none => ⟨none, r1, 0, none, r1.ctx, r1.ctl⟩
  | some res =>
    if res ≥ WorkerState.Disposed then
      ⟨some res, r1, 0, none, r1.ctx, r1.ctl⟩
    else
      let n := c.TakeNap r1.ctl r1.ctx
      let r2 := TakeCallLocked c tid fuel n.2 n.1
      ⟨r2.ret, r1, 1, some r2, r2.ctx, r2.ctl⟩

/-- The flags returned by `n` calls of `SetToAsyncTaking()` in a row, with no `SetAsyncTaken()`
between them. -/
def asyncTakingResults : Nat → WorkContentBase → List Bool
  | 0, _ => []
  | n + 1, w => w.SetToAsyncTaking.1 :: asyncTakingResults n w.SetToAsyncTaking.2

end Worker

/-- An operation on the worker state: the two state setters and `Worker::TakeCall` (on thread
`tid`, with loop bound `fuel`). -/
inductive WorkerOp where
  | SetToRinging
  | SetToDisposing
  | TakeCall (tid : ThreadIdType) (fuel : Nat)
  deriving DecidableEq, Repr

namespace WorkerOp

variable {σ : Type}

/-- The content and the controller content after one operation. -/
def apply (c : WorkContentController σ) : WorkerOp → WorkContentBase × σ → WorkContentBase × σ
  | SetToRinging, w => (w.1.SetToRinging.2, w.2)
  | SetToDisposing, w => (w.1.SetToDisposing.2, w.2)
  | TakeCall tid fuel, w =>
    let run := Worker.TakeCall c tid fuel w.2 w.1
    (run.ctx, run.ctl)

/-- The content and the controller content after a sequence of operations. -/
def applyAll (c : WorkContentController σ) : List WorkerOp → WorkContentBase × σ →
    WorkContentBase × σ
  | [], w => w
  | op :: ops, w => applyAll c ops (op.apply c w)

end WorkerOp

/-! ## Concrete controllers -/

/-- The controller of the documentation of `Worker<>` with no work stored: `Dispose` calls
`SetToDisposing`, `AddWork` calls `SetToRinging`, and `TakeCall` finds nothing to do and returns
`Sleeping`. -/
def idleController : WorkContentController Unit where
  Dispose := fun s w => (w.SetToDisposing.2, s)
  AddWork := fun s w => (w.SetToRinging.2, s)
  TakeCall := fun s w => (WorkerState.Sleeping, w, s)
  TakeNap := fun s w => (w, s)

/-- A controller whose successive `TakeCall` results are the stored list (`Sleeping` once the list
is used up); it does not touch the worker content. -/
def scriptController : WorkContentController (List WorkerState) where
  Dispose := fun s w => (w.SetToDisposing.2, s)
  AddWork := fun s w => (w.SetToRinging.2, s)
  TakeCall := fun s w => (s.headD WorkerState.Sleeping, w, s.tail)
  TakeNap := fun s w => (w, s)

/-- A controller that retires in its `TakeCall`: it sets the state to `Disposed` and returns the
stored value. -/
def retiringController : WorkContentController WorkerState where
  Dispose := fun s w => (w.SetToDisposing.2, s)
  AddWork := fun s w => (w.SetToRinging.2, s)
  TakeCall := fun s w => (s, w.SetWorkerState WorkerState.Disposed, s)
  TakeNap := fun s w => (w, s)

/-- A controller during each of whose `TakeCall` invocations another thread calls `Dispose()`,
which calls `SetToDisposing()`; its successive results are the stored list (`Sleeping` once the
list is used up). -/
def disposedMeanwhileController : WorkContentController (List WorkerState) where
  Dispose := fun s w => (w.SetToDisposing.2, s)
  AddWork := fun s w => (w.SetToRinging.2, s)
  TakeCall := fun s w => (s.headD WorkerState.Sleeping, w.SetToDisposing.2, s.tail)
  TakeNap := fun s w => (w, s)

/-! ## SendBuffer (`fon9/io/SendBuffer.hpp`)

`SendBuffer.hpp` declares `ClearBuffer`, `PushSend(Locker&, ...)`, `LockForConsume` and
`AfterConsumed` and defines the rest inline; `SendBuffer.cpp` and the buffer classes
`BufferList` and `DcQueueList` are not part of this development's sources.  The inline members
are embedded from the header; the other members are modelled from the specification and marked
so.  Every function is the code that runs with the lock of `Buffer_` held. -/

/-- The `enum SendBufferState`. -/
inductive SendBufferState where
  | NoLink
  | Preparing
  | BufferEmpty
  | BufferNotEmpty
  deriving DecidableEq, Repr

/-- A byte of buffered data. -/
abbrev Byte := Fin 256

/-- Modelled from the spec: the class `BufferList` (fon9/buffer), the "appendable producer-side
byte-range list" of §2: the bytes it holds, in append order. -/
abbrev BufferList := List Byte

/-- Modelled from the spec: the class `DcQueueList` (fon9/buffer), the "drainable consumer-side
queue" of §2: the bytes it holds, first to be sent first. -/
abbrev DcQueueList := List Byte

/-- Modelled from the spec: `DcQueueList::PopConsumed(n)`, "trimming N consumed bytes" (§6), with
`n` never exceeding the buffered length (§4.3). -/
def DcQueueList.PopConsumed (q : DcQueueList) (n : Nat) : DcQueueList :=
  q.drop n

/-- Modelled from the spec: the error code `ErrC` with which buffered data is failed; `no_link`
and `already_connected` are the two `std::errc` values the header names. -/
inductive ErrC where
  | no_link
  | already_connected
  | code (n : Nat)
  deriving DecidableEq, Repr

namespace SendBuffer

/-- The `enum class BufferStatus`. -/
inductive BufferStatus where
  | NoLink
  | Preparing
  | LinkReady
  | Sending
  deriving DecidableEq, Repr

/-- The `enum class AfterSent`. -/
inductive AfterSent where
  | BufferEmpty
  | NewArrive
  | HasRemain
  deriving DecidableEq, Repr

/-- The `enum class LockResult`. -/
inductive LockResult where
  | NotReady
  | AllowASAP
  | Queuing
  deriving DecidableEq, Repr

/-- The `enum class PushResult`. -/
inductive PushResult where
  | NotReady
  | New
  | Queuing
  deriving DecidableEq, Repr

/-- The `struct BufferImpl`. -/
structure BufferImpl where
  QueuingBuffer_ : BufferList
  SendingBuffer_ : DcQueueList
  Status_ : BufferStatus
  deriving DecidableEq, Repr

/-- `bool BufferImpl::IsQueuingRequired() const`. -/
def BufferImpl.IsQueuingRequired (b : BufferImpl) : Bool :=
  b.Status_ == BufferStatus.Sending || !b.SendingBuffer_.isEmpty || !b.QueuingBuffer_.isEmpty

/-- `bool BufferImpl::IsEmpty() const`. -/
def BufferImpl.IsEmpty (b : BufferImpl) : Bool :=
  b.SendingBuffer_.isEmpty && b.QueuingBuffer_.isEmpty

end SendBuffer

/-- The class `SendBuffer`: the member `Buffer_`, and two components that belong to the members
modelled from the spec: whether the drain section is held (between a successful `LockForConsume`
and its `AfterConsumed`, §4.3), and the data failed so far, each with its error code (§5: failed
"through the data's own completion path"). -/
structure SendBuffer where
  Buffer_ : SendBuffer.BufferImpl
  ConsumeLocked : Bool
  Failed : List (List Byte × ErrC)
  deriving DecidableEq, Repr

namespace SendBuffer

/-- `SendBuffer() = default`: status `NoLink`, both buffers empty. -/
def ctor : SendBuffer :=
  ⟨⟨[], [], BufferStatus.NoLink⟩, false, []⟩

/-- Modelled from the spec: `void ClearBuffer(const ErrC& errc, BufferStatus st)`, declared in the
header only.  §3: `SetLinkReady`/`SetLinkError` "both unconditionally clear buffered content";
§4.3: "fails all queued and in-flight bytes with `err` and moves to" the given status. -/
def ClearBuffer (b : SendBuffer) (errc : ErrC) (st : BufferStatus) : SendBuffer :=
  { b with
    Buffer_ := ⟨[], [], st⟩
    Failed := b.Failed ++ [(b.Buffer_.SendingBuffer_ ++ b.Buffer_.QueuingBuffer_, errc)] }

/-- `void SetLinkReady()`. -/
def SetLinkReady (b : SendBuffer) : SendBuffer :=
  b.ClearBuffer ErrC.already_connected BufferStatus.LinkReady

/-- `void SetLinkError(const ErrC& errc)`. -/
def SetLinkError (b : SendBuffer) (errc : ErrC) : SendBuffer :=
  b.ClearBuffer errc BufferStatus.NoLink

/-- `void SetPreparing()`: whether its `assert` held, and the buffer afterwards. -/
def SetPreparing (b : SendBuffer) : Bool × SendBuffer :=
  (b.Buffer_.Status_ == BufferStatus.NoLink,
    { b with Buffer_ := { b.Buffer_ with Status_ := BufferStatus.Preparing } })

/-- `bool IsEmpty() const`. -/
def IsEmpty (b : SendBuffer) : Bool :=
  b.Buffer_.IsEmpty

/-- `bool IsNoLink() const`. -/
def IsNoLink (b : SendBuffer) : Bool :=
  b.Buffer_.Status_ == BufferStatus.NoLink

/-- `SendBufferState GetState() const`. -/
def GetState (b : SendBuffer) : SendBufferState :=
  match b.Buffer_.Status_ with
  | BufferStatus.NoLink => SendBufferState.NoLink
  | BufferStatus.Preparing => SendBufferState.Preparing
  | BufferStatus.LinkReady =>
    if b.Buffer_.IsEmpty then SendBufferState.BufferEmpty else SendBufferState.BufferNotEmpty
  | BufferStatus.Sending =>
    if b.Buffer_.IsEmpty then SendBufferState.BufferEmpty else SendBufferState.BufferNotEmpty

/-- Modelled from the spec: `PushResult PushSend(Locker& buf, BufferList&& src)`, declared in the
header only.  §4.3: "if `NoLink`, fail `data` immediately with a "no link" error and report
`NotReady`; if no drain is in progress and the link is ready, move `data` directly into
`SendingBuffer`, set status `Sending`, report `New`; otherwise append to `QueuingBuffer` and
report `Queuing`."  Whether data has to queue is `BufferImpl::IsQueuingRequired`. -/
def PushSendLocked (b : SendBuffer) (src : BufferList) : PushResult × SendBuffer :=
  if b.Buffer_.Status_ = BufferStatus.NoLink then
    (PushResult.NotReady, { b with Failed := b.Failed ++ [(src, ErrC.no_link)] })
  else if b.Buffer_.Status_ = BufferStatus.LinkReady ∧ b.ConsumeLocked = false ∧
      b.Buffer_.IsQueuingRequired = false then
    (PushResult.New,
      { b with Buffer_ := { b.Buffer_ with SendingBuffer_ := b.Buffer_.SendingBuffer_ ++ src
                                           Status_ := BufferStatus.Sending } })
  else
    (PushResult.Queuing,
      { b with Buffer_ := { b.Buffer_ with QueuingBuffer_ := b.Buffer_.QueuingBuffer_ ++ src } })

/-- `PushResult PushSend(BufferList&& src)`: takes the lock and calls `PushSend(buf, src)`. -/
def PushSend (b : SendBuffer) (src : BufferList) : PushResult × SendBuffer :=
  b.PushSendLocked src

/-- Modelled from the spec: `DcQueueList* LockForConsume()`, declared in the header only.  §4.3:
"returns the drainable `SendingBuffer` if a drain may proceed, else a null result if nothing is
pending or another drain is already holding the section; establishes exclusivity until
`AfterConsumed`."  The result is the content of the exposed `SendingBuffer_`, or `none`. -/
def LockForConsume (b : SendBuffer) : Option DcQueueList × SendBuffer :=
  if (b.Buffer_.Status_ = BufferStatus.LinkReady ∨ b.Buffer_.Status_ = BufferStatus.Sending) ∧
      b.ConsumeLocked = false ∧ b.Buffer_.SendingBuffer_.isEmpty = false then
    (some b.Buffer_.SendingBuffer_, { b with ConsumeLocked := true })
  else
    (none, b)

/-- Modelled from the spec: `retval->PopConsumed(n)` on the buffer that `LockForConsume` returned,
which is `SendingBuffer_`. -/
def PopConsumed (b : SendBuffer) (n : Nat) : SendBuffer :=
  { b with Buffer_ := { b.Buffer_ with
      SendingBuffer_ := DcQueueList.PopConsumed b.Buffer_.SendingBuffer_ n } }

/-- Modelled from the spec: `AfterSent AfterConsumed(DcQueueList* outbuf)`, declared in the header
only.  §4.3: "If fully drained and `QueuingBuffer` empty → `BufferEmpty` (status becomes
`LinkReady`).  If fully drained and `QueuingBuffer` non-empty → splice queued bytes into
`SendingBuffer`, status stays `Sending`, report `NewArrive`.  If not fully drained → report
`HasRemain`."  It ends the drain section. -/
def AfterConsumed (b : SendBuffer) : AfterSent × SendBuffer :=
  if b.Buffer_.SendingBuffer_.isEmpty = false then
    (AfterSent.HasRemain, { b with ConsumeLocked := false })
  else if b.Buffer_.QueuingBuffer_.isEmpty then
    (AfterSent.BufferEmpty,
      { b with Buffer_ := { b.Buffer_ with Status_ := BufferStatus.LinkReady }
               ConsumeLocked := false })
  else
    (AfterSent.NewArrive,
      { b with Buffer_ := { b.Buffer_ with SendingBuffer_ := b.Buffer_.QueuingBuffer_
                                           QueuingBuffer_ := [] }
               ConsumeLocked := false })

/-- What the caller of the drain scenario of §8 observes: the two `PushSend` results, what the
two `LockForConsume` calls expose, and the two `AfterConsumed` results.  On a fresh `SendBuffer`:
`PushSend(d0)`, `SetLinkReady()`, `PushSend(d)`, `LockForConsume()`, `PopConsumed(n1)`,
`AfterConsumed`, `LockForConsume()`, `PopConsumed(n2)`, `AfterConsumed`. -/
structure DrainObserved where
  push1 : PushResult
  push2 : PushResult
  exposed1 : Option DcQueueList
  after1 : AfterSent
  exposed2 : Option DcQueueList
  after2 : AfterSent
  deriving DecidableEq, Repr

/-- The drain scenario of §8, see `DrainObserved`. -/
def drainScenario (d0 d : BufferList) (n1 n2 : Nat) : DrainObserved :=
  let r1 := ctor.PushSend d0
  let b2 := r1.2.SetLinkReady
  let r3 := b2.PushSend d
  let r4 := r3.2.LockForConsume
  let b5 := r4.2.PopConsumed n1
  let r6 := b5.AfterConsumed
  let r7 := r6.2.LockForConsume
  let b8 := r7.2.PopConsumed n2
  let r9 := b8.AfterConsumed
  ⟨r1.1, r3.1, r4.1, r6.1, r7.1, r9.1⟩

/-- What the caller of the ordering scenario of §8 observes: what the first `LockForConsume`
exposes, the results of the two `PushSend` calls made during the drain, the `AfterConsumed`
result, and what the next `LockForConsume` exposes. -/
structure QueuingObserved where
  exposed1 : Option DcQueueList
  pushA : PushResult
  pushB : PushResult
  after : AfterSent
  exposed2 : Option DcQueueList
  deriving DecidableEq, Repr

/-- The ordering scenario of §8 from the buffer `b`: `LockForConsume()`, `PushSend(A)`,
`PushSend(B)`, `PopConsumed` of all the exposed bytes, `AfterConsumed`, `LockForConsume()`. -/
def queuingScenario (b : SendBuffer) (A B : BufferList) : QueuingObserved :=
  let r1 := b.LockForConsume
  let r2 := r1.2.PushSend A
  let r3 := r2.2.PushSend B
  let b4 := r3.2.PopConsumed (r1.1.getD []).length
  let r5 := b4.AfterConsumed
  let r6 := r5.2.LockForConsume
  ⟨r1.1, r2.1, r3.1, r5.1, r6.1⟩

end SendBuffer

/-- The conversion `static_cast<int>(n)` of a `size_t` value to a 32-bit `int`: the value modulo
`2^32`, read as two's complement. -/
def castToInt (n : Nat) : Int :=
  if n % 2 ^ 32 < 2 ^ 31 then ((n % 2 ^ 32 : Nat) : Int)
  else ((n % 2 ^ 32 : Nat) : Int) - 2 ^ 32

/-- Modelled from the spec: `DcQueueList::PeekBlockVector(vect)` for a vector `vect` of `maxCount`
elements, the "bounded vectorized peek" of §6 ("a bounded scatter/gather view", §4.3): the number
of blocks put into `vect`.  The byte sequence that stands for a queue does not say where its
blocks begin, so `blocks` gives the number of blocks a queue holds; the peek reports at most
`maxCount` of them. -/
def DcQueueList.PeekBlockVector (blocks : DcQueueList → Nat) (maxCount : Nat)
    (q : DcQueueList) : Nat :=
  min (blocks q) maxCount

namespace SendBuffer

/-- `static int CheckPushSendBlockVector(Locker& buf, PushResult res, T (&vect)[maxCount])`. -/
def CheckPushSendBlockVector (blocks : DcQueueList → Nat) (maxCount : Nat) (buf : SendBuffer)
    (res : PushResult) : Int :=
  match res with
  | PushResult.NotReady => -1
  | PushResult.New =>
    castToInt (DcQueueList.PeekBlockVector blocks maxCount buf.Buffer_.SendingBuffer_)
  | PushResult.Queuing => 0

/-- `int PushSendBlockVector(BufferList&& src, T (&vect)[maxCount])`: the returned value and the
buffer afterwards. -/
def PushSendBlockVector (blocks : DcQueueList → Nat) (maxCount : Nat) (b : SendBuffer)
    (src : BufferList) : Int × SendBuffer :=
  let r := b.PushSendLocked src
  (CheckPushSendBlockVector blocks maxCount r.2 r.1, r.2)

/-- `int ContSendBlockVector(size_t sentBytes, T (&vect)[maxCount])`: the returned value and the
buffer afterwards.  `LockForConsume(buf)` is the modelled `LockForConsume`. -/
def ContSendBlockVector (blocks : DcQueueList → Nat) (maxCount : Nat) (b : SendBuffer)
    (sentBytes : Nat) : Int × SendBuffer :=
  let b1 := if sentBytes > 0 then b.PopConsumed sentBytes else b
  let r := b1.LockForConsume
  match r.1 with
  | some outbuf => (castToInt (DcQueueList.PeekBlockVector blocks maxCount outbuf), r.2)
  | none => (0, r.2)

end SendBuffer

/-! ## Changes of the worker state by the setters only -/

/-- One of the two setters of the worker state that producers and controllers use. -/
inductive StateSetter where
  | SetToRinging
  | SetToDisposing
  deriving DecidableEq, Repr

/-- The content after one setter call. -/
def StateSetter.apply : StateSetter → WorkContentBase → WorkContentBase
  | StateSetter.SetToRinging, w => w.SetToRinging.2
  | StateSetter.SetToDisposing, w => w.SetToDisposing.2

/-- The content after a sequence of setter calls. -/
def StateSetter.applyAll : List StateSetter → WorkContentBase → WorkContentBase
  | [], w => w
  | op :: ops, w => StateSetter.applyAll ops (op.apply w)

/-- An invocation of the controller's `TakeCall` during which the worker state was changed only
through `SetToRinging()` and `SetToDisposing()`: the state handed back is the one some sequence of
these calls makes of the state the invocation was entered with. -/
def Invocation.bySettersOnly (i : Invocation) : Prop :=
  ∃ ops : List StateSetter, (StateSetter.applyAll ops i.before).State_ = i.after.State_

/-! ## PkContFeeder (`fon9/PkCont.hpp`) -/

/-- The type `SeqT = uint64_t`: a value is kept as a natural number below `2^64`. -/
abbrev SeqT := Nat

/-- The sequence and counter members of the class `PkContFeeder`. -/
structure PkContFeeder where
  NextSeq_ : SeqT
  ReceivedCount_ : SeqT
  DroppedCount_ : SeqT
  LostCount_ : SeqT
  AfterNextSeq_ : SeqT
  deriving DecidableEq, Repr

/-- What one `CallOnReceived` did: the object when `PkContOnReceived` is entered, the object when
it returns, and the object when `CallOnReceived` returns. -/
structure CallOnReceivedRun where
  atHandler : PkContFeeder
  afterHandler : PkContFeeder
  final : PkContFeeder
  deriving DecidableEq, Repr

/-- `void CallOnReceived(const void* pk, unsigned pksz, SeqT seq)`.  The pure virtual
`PkContOnReceived` of the derived class is the function `PkContOnReceived`, from the object and
the arguments to the object it leaves. -/
def PkContFeeder.CallOnReceived
    (PkContOnReceived : PkContFeeder → List Byte → Nat → SeqT → PkContFeeder)
    (f : PkContFeeder) (pk : List Byte) (pksz : Nat) (seq : SeqT) : CallOnReceivedRun :=
  let f1 := { f with AfterNextSeq_ := (seq + 1) % 2 ^ 64 }
  let f2 := PkContOnReceived f1 pk pksz seq
  let f3 := { f2 with NextSeq_ := f2.AfterNextSeq_ }
  let f4 := { f3 with ReceivedCount_ := (f3.ReceivedCount_ + 1) % 2 ^ 64 }
  ⟨f1, f2, f4⟩

/-! ## FieldCharsL (`fon9/seed/FieldCharsL.cpp`)

The cell of a `FieldCharsL` is the `Size_` bytes at which `GetCellPtr<char>(*this)` points: the
text, and its length in the last byte. -/

/-- The two values of `OpResult` that `FieldCharsL` returns. -/
inductive OpResult where
  | no_error
  | value_overflow
  deriving DecidableEq, Repr

/-- The conversion `static_cast<char>(sz)` of a `size_t` value: the byte `sz` modulo 256. -/
def castToChar (sz : Nat) : Byte :=
  ⟨sz % 256, Nat.mod_lt sz (by decide)⟩

/-- The call `memcpy(dst, src, n)`: the first `n` bytes of `dst` become the first `n` bytes of
`src`. -/
def memcpy (dst src : List Byte) (n : Nat) : List Byte :=
  src.take n ++ dst.drop n

/-- The class `FieldCharsL`: the member `Size_` of its base `Field`. -/
structure FieldCharsL where
  Size_ : Nat
  deriving DecidableEq, Repr

namespace FieldCharsL

/-- `OpResult StrToCell(const RawWr& wr, StrView value) const`: the result and the cell
afterwards. -/
def StrToCell (f : FieldCharsL) (cell : List Byte) (value : List Byte) : OpResult × List Byte :=
  let sz := min value.length (f.Size_ - 1)
  let c1 := memcpy cell value sz
  (OpResult.no_error, c1.set (f.Size_ - 1) (castToChar sz))

/-- `OpResult SetNull(const RawWr& wr) const`: the result and the cell afterwards. -/
def SetNull (f : FieldCharsL) (cell : List Byte) : OpResult × List Byte :=
  (OpResult.no_error, cell.set (f.Size_ - 1) 0)

/-- `bool IsNull(const RawRd& rd) const`. -/
def IsNull (f : FieldCharsL) (cell : List Byte) : Bool :=
  cell[f.Size_ - 1]? == some 0

/-- `OpResult PutNumber(const RawWr& wr, FieldNumberT num, DecScaleT decScale) const`: the result
and the cell afterwards.  `DecToStrRev` gives the decimal text of `(num, decScale)` that the
function of that name leaves in the `NumOutBuf`. -/
def PutNumber (DecToStrRev : Int → Nat → List Byte) (f : FieldCharsL) (cell : List Byte)
    (num : Int) (decScale : Nat) : OpResult × List Byte :=
  let text := DecToStrRev num decScale
  let sz := text.length
  if sz > f.Size_ - 1 then
    (OpResult.value_overflow, cell)
  else
    let c1 := memcpy cell text sz
    (OpResult.no_error, c1.set (f.Size_ - 1) (castToChar sz))

end FieldCharsL

end fon9

/-! ## ExgMcSystem (`f9twf/ExgMcGroup.cpp`) -/

namespace f9twf

/-- The type `fon9::TimeStamp`: a point in time as a whole number of time units. -/
abbrev TimeStamp := Int

/-- The functions on `fon9::TimeStamp` that `ExgMcSystem` uses: `fon9::GetHHMMSS`,
`fon9::GetYYYYMMDD` (both return `unsigned`) and `fon9::TimeInterval_Day`. -/
structure TimeFns where
  GetHHMMSS : TimeStamp → Nat
  GetYYYYMMDD : TimeStamp → Nat
  TimeInterval_Day : Int → Int

/-- The members `ClearHHMMSS_` and `TDayYYYYMMDD_` of the class `ExgMcSystem`. -/
structure ExgMcSystem where
  ClearHHMMSS_ : Nat
  TDayYYYYMMDD_ : Nat
  deriving DecidableEq, Repr

/-- `unsigned ExgMcSystem::CheckTDayYYYYMMDD(fon9::TimeStamp tm) const`. -/
def ExgMcSystem.CheckTDayYYYYMMDD (t : TimeFns) (sys : ExgMcSystem) (tm : TimeStamp) : Nat :=
  let tm1 := if t.GetHHMMSS tm < sys.ClearHHMMSS_ then tm - t.TimeInterval_Day 1 else tm
  t.GetYYYYMMDD tm1

/-- An instance of the time functions, for timestamps in seconds since 1970-01-01 00:00:00 and no
time zone: the time of day as `HHMMSS`, the date as `YYYYMMDD` (days to civil date), and a day of
86400 seconds. -/
def secondsTimeFns : TimeFns where
  GetHHMMSS := fun tm =>
    let sod := (tm % 86400).toNat
    (sod / 3600) * 10000 + ((sod % 3600) / 60) * 100 + sod % 60
  GetYYYYMMDD := fun tm =>
    let z := tm / 86400 + 719468
    let era := z / 146097
    let doe := (z - era * 146097).toNat
    let yoe := (doe - doe / 1460 + doe / 36524 - doe / 146096) / 365
    let doy := doe - (365 * yoe + yoe / 4 - yoe / 100)
    let mp := (5 * doy + 2) / 153
    let d := doy - (153 * mp + 2) / 5 + 1
    let m := if mp < 10 then mp + 3 else mp - 9
    let y := (era * 400 + (yoe : Int) + (if m ≤ 2 then 1 else 0)).toNat
    y * 10000 + m * 100 + d
  TimeInterval_Day := fun n => n * 86400

end f9twf

namespace fon9

/-! ## The state setters -/

theorem WorkerState.disposed_le_iff (x : WorkerState) :
    WorkerState.Disposed ≤ x ↔ x = WorkerState.Disposed := by
  cases x <;> decide

theorem WorkerState.disposing_le_iff (x : WorkerState) :
    WorkerState.Disposing ≤ x ↔
      x = WorkerState.Disposing ∨ x = WorkerState.DisposeWorking ∨ x = WorkerState.Disposed := by
  cases x <;> decide

theorem WorkerState.lt_disposing_iff (x : WorkerState) :
    x < WorkerState.Disposing ↔
      x = WorkerState.Sleeping ∨ x = WorkerState.Ringing ∨ x = WorkerState.Working := by
  cases x <;> decide

/-- C6: for every state, `SetToRinging()` returns true exactly when the state is `Sleeping`; then
the new state is `Ringing`; in every other case the content is unchanged. -/
theorem setToRinging_spec (w : WorkContentBase) :
    (w.SetToRinging.1 = true ↔ w.State_ = WorkerState.Sleeping) ∧
    (w.State_ = WorkerState.Sleeping → w.SetToRinging.2.State_ = WorkerState.Ringing) ∧
    (w.State_ ≠ WorkerState.Sleeping → w.SetToRinging.2 = w) := by
  obtain ⟨st, a, t⟩ := w
  cases st <;> simp [WorkContentBase.SetToRinging]

/-- Witness of C6: `SetToRinging()` on a `Sleeping` and on a `Working` content. -/
theorem setToRinging_spec_witness :
    (WorkContentBase.SetToRinging ⟨WorkerState.Sleeping, false, 0⟩).2.State_ =
      WorkerState.Ringing ∧
    (WorkContentBase.SetToRinging ⟨WorkerState.Working, true, 3⟩).2 =
      ⟨WorkerState.Working, true, 3⟩ :=
  ⟨(setToRinging_spec ⟨WorkerState.Sleeping, false, 0⟩).2.1 rfl,
    (setToRinging_spec ⟨WorkerState.Working, true, 3⟩).2.2 (by decide)⟩

/-- C7: for every state `s`, `SetToDisposing()` returns true exactly when `s < Disposing`, that is
when `s` is `Sleeping`, `Ringing` or `Working`; then the new state is `DisposeWorking` if `s` was
`Working` and `Disposing` otherwise; when `s >= Disposing` it returns false and the content is
unchanged. -/
theorem setToDisposing_spec (w : WorkContentBase) :
    (w.SetToDisposing.1 = true ↔ w.State_ < WorkerState.Disposing) ∧
    (w.State_ < WorkerState.Disposing ↔
      w.State_ = WorkerState.Sleeping ∨ w.State_ = WorkerState.Ringing ∨
        w.State_ = WorkerState.Working) ∧
    (w.State_ < WorkerState.Disposing →
      w.SetToDisposing.2.State_ =
        if w.State_ = WorkerState.Working then WorkerState.DisposeWorking
        else WorkerState.Disposing) ∧
    (w.State_ ≥ WorkerState.Disposing → w.SetToDisposing.1 = false ∧ w.SetToDisposing.2 = w) := by
  obtain ⟨st, a, t⟩ := w
  cases st <;>
    simp [WorkContentBase.SetToDisposing, WorkerState.disposing_le_iff,
      WorkerState.lt_disposing_iff]

/-- Witness of C7: `SetToDisposing()` on a `Working` and on a `DisposeWorking` content. -/
theorem setToDisposing_spec_witness :
    (WorkContentBase.SetToDisposing ⟨WorkerState.Working, false, 3⟩).2.State_ =
      WorkerState.DisposeWorking ∧
    (WorkContentBase.SetToDisposing ⟨WorkerState.DisposeWorking, false, 3⟩).1 = false ∧
    (WorkContentBase.SetToDisposing ⟨WorkerState.DisposeWorking, false, 3⟩).2 =
      ⟨WorkerState.DisposeWorking, false, 3⟩ :=
  ⟨(setToDisposing_spec ⟨WorkerState.Working, false, 3⟩).2.2.1 (by decide),
    (setToDisposing_spec ⟨WorkerState.DisposeWorking, false, 3⟩).2.2.2 (by decide)⟩

/-- C8: for every starting content, the second of two `SetToDisposing()` calls in a row returns
false and leaves the content exactly as the first call left it. -/
theorem setToDisposing_twice (w : WorkContentBase) :
    (w.SetToDisposing.2).SetToDisposing.1 = false ∧
    (w.SetToDisposing.2).SetToDisposing.2 = w.SetToDisposing.2 := by
  obtain ⟨st, a, t⟩ := w
  cases st <;>
    simp [WorkContentBase.SetToDisposing, WorkerState.disposing_le_iff,
      WorkerState.lt_disposing_iff]

/-! ## The loop of `TakeCallLocked` -/

namespace Worker

variable {σ : Type}

theorem TakeCallLoop_exit_disposed (c : WorkContentController σ) (tid : ThreadIdType)
    (fuel : Nat) (ctx : WorkContentBase) (s : σ) (tr : List Invocation) (ok : Bool)
    (h : (c.TakeCall s ctx).2.1.State_ = WorkerState.Disposed) :
    TakeCallLoop c tid (fuel + 1) ctx s tr ok =
      ⟨some WorkerState.Disposed,
        ((c.TakeCall s ctx).2.1.ClrTakingCallThreadId tid).2,
        (c.TakeCall s ctx).2.2,
        tr ++ [invocationAt c s ctx],
        ok && ((c.TakeCall s ctx).2.1.ClrTakingCallThreadId tid).1⟩ := by
  simp [TakeCallLoop, WorkContentBase.GetWorkerState, h, invocationAt,
    WorkerState.disposed_le_iff]

theorem TakeCallLoop_again (c : WorkContentController σ) (tid : ThreadIdType)
    (fuel : Nat) (ctx : WorkContentBase) (s : σ) (tr : List Invocation) (ok : Bool)
    (hnd : (c.TakeCall s ctx).2.1.State_ ≠ WorkerState.Disposed)
    (hw : (c.TakeCall s ctx).1 = WorkerState.Working ∨
      (c.TakeCall s ctx).1 = WorkerState.DisposeWorking) :
    TakeCallLoop c tid (fuel + 1) ctx s tr ok =
      TakeCallLoop c tid fuel (c.TakeCall s ctx).2.1 (c.TakeCall s ctx).2.2
        (tr ++ [invocationAt c s ctx])
        (ok && ((c.TakeCall s ctx).2.1.State_ == WorkerState.Working ||
          (c.TakeCall s ctx).2.1.State_ == WorkerState.DisposeWorking)) := by
  simp [TakeCallLoop, WorkContentBase.GetWorkerState, hnd, hw, invocationAt,
    WorkerState.disposed_le_iff]

theorem TakeCallLoop_commit (c : WorkContentController σ) (tid : ThreadIdType)
    (fuel : Nat) (ctx : WorkContentBase) (s : σ) (tr : List Invocation) (ok : Bool)
    (hnd : (c.TakeCall s ctx).2.1.State_ ≠ WorkerState.Disposed)
    (hw : ¬ ((c.TakeCall s ctx).1 = WorkerState.Working ∨
      (c.TakeCall s ctx).1 = WorkerState.DisposeWorking)) :
    TakeCallLoop c tid (fuel + 1) ctx s tr ok =
      ⟨some (c.TakeCall s ctx).1,
        (((c.TakeCall s ctx).2.1.SetWorkerState (c.TakeCall s ctx).1).ClrTakingCallThreadId tid).2,
        (c.TakeCall s ctx).2.2,
        tr ++ [invocationAt c s ctx],
        (ok && ((c.TakeCall s ctx).2.1.State_ == WorkerState.Working ||
          (c.TakeCall s ctx).2.1.State_ == WorkerState.DisposeWorking)) &&
          (((c.TakeCall s ctx).2.1.SetWorkerState
            (c.TakeCall s ctx).1).ClrTakingCallThreadId tid).1⟩ := by
  simp [TakeCallLoop, WorkContentBase.GetWorkerState, hnd, hw, invocationAt,
    WorkerState.disposed_le_iff]

/-- A run of the loop keeps the invocations recorded before it and adds its own behind them. -/
theorem TakeCallLoop_calls_append (c : WorkContentController σ) (tid : ThreadIdType)
    (fuel : Nat) (ctx : WorkContentBase) (s : σ) (tr : List Invocation) (ok : Bool) :
    ∃ l, (TakeCallLoop c tid fuel ctx s tr ok).calls = tr ++ l := by
  induction fuel generalizing ctx s tr ok with
  | zero => exact ⟨[], by simp [TakeCallLoop]⟩
  | succ n ih =>
    by_cases hd : (c.TakeCall s ctx).2.1.State_ = WorkerState.Disposed
    · rw [TakeCallLoop_exit_disposed c tid n ctx s tr ok hd]
      exact ⟨_, rfl⟩
    · by_cases hw : (c.TakeCall s ctx).1 = WorkerState.Working ∨
        (c.TakeCall s ctx).1 = WorkerState.DisposeWorking
      · rw [TakeCallLoop_again c tid n ctx s tr ok hd hw]
        obtain ⟨l, hl⟩ := ih (c.TakeCall s ctx).2.1 (c.TakeCall s ctx).2.2
          (tr ++ [invocationAt c s ctx])
          (ok && ((c.TakeCall s ctx).2.1.State_ == WorkerState.Working ||
            (c.TakeCall s ctx).2.1.State_ == WorkerState.DisposeWorking))
        exact ⟨invocationAt c s ctx :: l, by rw [hl]; simp⟩
      · rw [TakeCallLoop_commit c tid n ctx s tr ok hd hw]
        exact ⟨_, rfl⟩

/-- With at least one iteration allowed, the first invocation a run of the loop adds is the one
entered with the content the loop was started with. -/
theorem TakeCallLoop_calls_first (c : WorkContentController σ) (tid : ThreadIdType)
    (fuel : Nat) (ctx : WorkContentBase) (s : σ) (tr : List Invocation) (ok : Bool) :
    ∃ l, (TakeCallLoop c tid (fuel + 1) ctx s tr ok).calls = tr ++ invocationAt c s ctx :: l := by
  by_cases hd : (c.TakeCall s ctx).2.1.State_ = WorkerState.Disposed
  · rw [TakeCallLoop_exit_disposed c tid fuel ctx s tr ok hd]
    exact ⟨[], rfl⟩
  · by_cases hw : (c.TakeCall s ctx).1 = WorkerState.Working ∨
      (c.TakeCall s ctx).1 = WorkerState.DisposeWorking
    · rw [TakeCallLoop_again c tid fuel ctx s tr ok hd hw]
      obtain ⟨l, hl⟩ := TakeCallLoop_calls_append c tid fuel (c.TakeCall s ctx).2.1
        (c.TakeCall s ctx).2.2 (tr ++ [invocationAt c s ctx])
        (ok && ((c.TakeCall s ctx).2.1.State_ == WorkerState.Working ||
          (c.TakeCall s ctx).2.1.State_ == WorkerState.DisposeWorking))
      exact ⟨l, by rw [hl]; simp⟩
    · rw [TakeCallLoop_commit c tid fuel ctx s tr ok hd hw]
      exact ⟨[], rfl⟩

/-- From `Sleeping`, `Ringing` or `Disposing`, `TakeCallLocked` is the loop started with
`workEntry`. -/
theorem TakeCallLocked_eq_loop (c : WorkContentController σ) (tid : ThreadIdType) (fuel : Nat)
    (s : σ) (ctx : WorkContentBase)
    (h : ctx.State_ = WorkerState.Sleeping ∨ ctx.State_ = WorkerState.Ringing ∨
      ctx.State_ = WorkerState.Disposing) :
    TakeCallLocked c tid fuel s ctx =
      TakeCallLoop c tid fuel (workEntry tid ctx) s [] (ctx.TakingCallThreadId_ == 0) := by
  obtain ⟨st, a, t⟩ := ctx
  rcases h with h | h | h <;> simp only at h <;> subst h <;> rfl

/-- From `Working`, `DisposeWorking` or `Disposed`, `TakeCallLocked` returns at once. -/
theorem TakeCallLocked_refused (c : WorkContentController σ) (tid : ThreadIdType) (fuel : Nat)
    (s : σ) (ctx : WorkContentBase)
    (h : ctx.State_ = WorkerState.Working ∨ ctx.State_ = WorkerState.DisposeWorking ∨
      ctx.State_ = WorkerState.Disposed) :
    TakeCallLocked c tid fuel s ctx = ⟨some ctx.State_, ctx, s, [], true⟩ := by
  obtain ⟨st, a, t⟩ := ctx
  rcases h with h | h | h <;> simp only at h <;> subst h <;> rfl

/-- When a run of the loop returns, the value it returns is the state it leaves. -/
theorem TakeCallLoop_ret_state (c : WorkContentController σ) (tid : ThreadIdType)
    (fuel : Nat) (ctx : WorkContentBase) (s : σ) (tr : List Invocation) (ok : Bool)
    (r : WorkerState) (h : (TakeCallLoop c tid fuel ctx s tr ok).ret = some r) :
    (TakeCallLoop c tid fuel ctx s tr ok).ctx.State_ = r ∧ r ≠ WorkerState.Working ∧
      r ≠ WorkerState.DisposeWorking := by
  induction fuel generalizing ctx s tr ok with
  | zero => simp [TakeCallLoop] at h
  | succ n ih =>
    by_cases hd : (c.TakeCall s ctx).2.1.State_ = WorkerState.Disposed
    · rw [TakeCallLoop_exit_disposed c tid n ctx s tr ok hd] at h ⊢
      simp only [Option.some.injEq] at h
      subst h
      simp [WorkContentBase.ClrTakingCallThreadId, hd]
    · by_cases hw : (c.TakeCall s ctx).1 = WorkerState.Working ∨
        (c.TakeCall s ctx).1 = WorkerState.DisposeWorking
      · rw [TakeCallLoop_again c tid n ctx s tr ok hd hw] at h ⊢
        exact ih _ _ _ _ h
      · rw [TakeCallLoop_commit c tid n ctx s tr ok hd hw] at h ⊢
        simp only [Option.some.injEq] at h
        subst h
        simp only [not_or] at hw
        simp [WorkContentBase.ClrTakingCallThreadId, WorkContentBase.SetWorkerState, hw]

/-- A run of the loop in which some invocation of its own handed the state back as `Disposed`
returned `Disposed` and left the state `Disposed`. -/
theorem TakeCallLoop_disposed_seen (c : WorkContentController σ) (tid : ThreadIdType)
    (fuel : Nat) (ctx : WorkContentBase) (s : σ) (tr : List Invocation) (ok : Bool)
    (htr : ∀ i ∈ tr, i.after.State_ ≠ WorkerState.Disposed)
    (h : ∃ i ∈ (TakeCallLoop c tid fuel ctx s tr ok).calls,
      i.after.State_ = WorkerState.Disposed) :
    (TakeCallLoop c tid fuel ctx s tr ok).ret = some WorkerState.Disposed ∧
      (TakeCallLoop c tid fuel ctx s tr ok).ctx.State_ = WorkerState.Disposed := by
  induction fuel generalizing ctx s tr ok with
  | zero =>
    obtain ⟨i, hi, hs⟩ := h
    exact absurd hs (htr i (by simpa [TakeCallLoop] using hi))
  | succ n ih =>
    by_cases hd : (c.TakeCall s ctx).2.1.State_ = WorkerState.Disposed
    · rw [TakeCallLoop_exit_disposed c tid n ctx s tr ok hd]
      simp [WorkContentBase.ClrTakingCallThreadId, hd]
    · have htr1 : ∀ i ∈ tr ++ [invocationAt c s ctx],
          i.after.State_ ≠ WorkerState.Disposed := by
        intro i hi
        rcases List.mem_append.1 hi with hi | hi
        · exact htr i hi
        · rw [List.mem_singleton.1 hi]
          exact hd
      by_cases hw : (c.TakeCall s ctx).1 = WorkerState.Working ∨
        (c.TakeCall s ctx).1 = WorkerState.DisposeWorking
      · rw [TakeCallLoop_again c tid n ctx s tr ok hd hw] at h ⊢
        exact ih _ _ _ _ htr1 h
      · rw [TakeCallLoop_commit c tid n ctx s tr ok hd hw] at h
        obtain ⟨i, hi, hs⟩ := h
        exact absurd hs (htr1 i hi)

/-- A run of the loop over a controller whose next results are `rs` (each asking for another
iteration) and then `rn` (ending the session), and which does not set the state to `Disposed`
meanwhile, makes exactly these invocations, commits `rn` and returns it. -/
theorem TakeCallLoop_session (c : WorkContentController σ) (tid : ThreadIdType)
    (rs : List WorkerState) (rn : WorkerState)
    (fuel : Nat) (ctx : WorkContentBase) (s : σ) (tr : List Invocation) (ok : Bool)
    (hres : (successiveCalls c (rs.length + 1) ctx s).map (fun i => i.result) = rs ++ [rn])
    (hrs : ∀ r ∈ rs, r = WorkerState.Working ∨ r = WorkerState.DisposeWorking)
    (hrn : ¬ (rn = WorkerState.Working ∨ rn = WorkerState.DisposeWorking))
    (hnd : ∀ i ∈ successiveCalls c (rs.length + 1) ctx s,
      i.after.State_ ≠ WorkerState.Disposed)
    (hfuel : rs.length + 1 ≤ fuel) :
    (TakeCallLoop c tid fuel ctx s tr ok).ret = some rn ∧
    (TakeCallLoop c tid fuel ctx s tr ok).calls =
      tr ++ successiveCalls c (rs.length + 1) ctx s ∧
    (TakeCallLoop c tid fuel ctx s tr ok).ctx.State_ = rn := by
  induction rs generalizing fuel ctx s tr ok with
  | nil =>
    obtain ⟨n, rfl⟩ : ∃ n, fuel = n + 1 := ⟨fuel - 1, by simp at hfuel; omega⟩
    simp only [List.length_nil, Nat.zero_add, successiveCalls, List.map_cons, List.map_nil,
      List.nil_append, List.cons.injEq, and_true, List.mem_singleton, forall_eq] at hres hnd
    subst hres
    rw [TakeCallLoop_commit c tid n ctx s tr ok hnd hrn]
    simp [successiveCalls, invocationAt, WorkContentBase.ClrTakingCallThreadId,
      WorkContentBase.SetWorkerState]
  | cons r rs ih =>
    obtain ⟨n, rfl⟩ : ∃ n, fuel = n + 1 := ⟨fuel - 1, by simp at hfuel; omega⟩
    have hsucc : successiveCalls c (rs.length + 1 + 1) ctx s =
        invocationAt c s ctx ::
          successiveCalls c (rs.length + 1) (c.TakeCall s ctx).2.1 (c.TakeCall s ctx).2.2 := rfl
    simp only [List.length_cons] at hres hnd hfuel ⊢
    rw [hsucc] at hres hnd ⊢
    simp only [List.map_cons, List.cons_append, List.cons.injEq] at hres
    obtain ⟨hr, hres1⟩ := hres
    have hd : (c.TakeCall s ctx).2.1.State_ ≠ WorkerState.Disposed :=
      hnd (invocationAt c s ctx) (List.mem_cons_self _ _)
    have hw : (c.TakeCall s ctx).1 = WorkerState.Working ∨
        (c.TakeCall s ctx).1 = WorkerState.DisposeWorking :=
      hrs (c.TakeCall s ctx).1 (by rw [← hr]; exact List.mem_cons_self _ _)
    rw [TakeCallLoop_again c tid n ctx s tr ok hd hw]
    obtain ⟨h1, h2, h3⟩ := ih n (c.TakeCall s ctx).2.1 (c.TakeCall s ctx).2.2
      (tr ++ [invocationAt c s ctx])
      (ok && ((c.TakeCall s ctx).2.1.State_ == WorkerState.Working ||
        (c.TakeCall s ctx).2.1.State_ == WorkerState.DisposeWorking))
      hres1 (fun x hx => hrs x (List.mem_cons_of_mem _ hx))
      (fun i hi => hnd i (List.mem_cons_of_mem _ hi)) (by omega)
    refine ⟨h1, ?_, h3⟩
    rw [h2]
    simp

end Worker

/-! ## `Worker::TakeCall` -/

/-- C2: for every controller, a `Worker::TakeCall` entered in `Working`, `DisposeWorking` or
`Disposed` returns that same state, invokes the controller's `TakeCall` zero times, and leaves
the whole content (the state and the thread-affinity marker with it) and the controller's content
unchanged; this holds for every loop bound. -/
theorem takeCall_refused {σ : Type} (c : WorkContentController σ) (tid : ThreadIdType)
    (fuel : Nat) (s : σ) (ctx : WorkContentBase)
    (h : ctx.State_ = WorkerState.Working ∨ ctx.State_ = WorkerState.DisposeWorking ∨
      ctx.State_ = WorkerState.Disposed) :
    (Worker.TakeCall c tid fuel s ctx).ret = some ctx.State_ ∧
    (Worker.TakeCall c tid fuel s ctx).calls = [] ∧
    (Worker.TakeCall c tid fuel s ctx).ctx = ctx ∧
    (Worker.TakeCall c tid fuel s ctx).ctx.State_ = ctx.State_ ∧
    (Worker.TakeCall c tid fuel s ctx).ctx.TakingCallThreadId_ = ctx.TakingCallThreadId_ ∧
    (Worker.TakeCall c tid fuel s ctx).ctl = s := by
  obtain ⟨st, a, t⟩ := ctx
  rcases h with h | h | h <;> simp only at h <;> subst h <;>
    simp [Worker.TakeCall, Worker.TakeCallLocked, WorkContentBase.GetWorkerState]

/-- Witness of C2: a refused `TakeCall` of the idle controller in state `Working`. -/
theorem takeCall_refused_witness :
    (Worker.TakeCall idleController 7 3 () ⟨WorkerState.Working, false, 5⟩).ret =
        some WorkerState.Working ∧
    (Worker.TakeCall idleController 7 3 () ⟨WorkerState.Working, false, 5⟩).calls = [] ∧
    (Worker.TakeCall idleController 7 3 () ⟨WorkerState.Working, false, 5⟩).ctx =
        ⟨WorkerState.Working, false, 5⟩ ∧
    (Worker.TakeCall idleController 7 3 () ⟨WorkerState.Working, false, 5⟩).ctx.State_ =
        WorkerState.Working ∧
    (Worker.TakeCall idleController 7 3 () ⟨WorkerState.Working, false, 5⟩).ctx.TakingCallThreadId_
        = 5 ∧
    (Worker.TakeCall idleController 7 3 () ⟨WorkerState.Working, false, 5⟩).ctl = () :=
  takeCall_refused idleController 7 3 () ⟨WorkerState.Working, false, 5⟩ (Or.inl rfl)

/-- C4: with at least one loop iteration allowed, when `Worker::TakeCall` is entered in `Sleeping`
or `Ringing` the first controller invocation sees the state `Working`, and when it is entered in
`Disposing` the first controller invocation sees the state `DisposeWorking`. -/
theorem takeCall_first_invocation_state {σ : Type} (c : WorkContentController σ)
    (tid : ThreadIdType) (fuel : Nat) (s : σ) (ctx : WorkContentBase) :
    ((ctx.State_ = WorkerState.Sleeping ∨ ctx.State_ = WorkerState.Ringing) →
      ((Worker.TakeCall c tid (fuel + 1) s ctx).calls.head?).map (fun i => i.before.State_) =
        some WorkerState.Working) ∧
    (ctx.State_ = WorkerState.Disposing →
      ((Worker.TakeCall c tid (fuel + 1) s ctx).calls.head?).map (fun i => i.before.State_) =
        some WorkerState.DisposeWorking) := by
  constructor
  · intro h
    have he : ctx.State_ = WorkerState.Sleeping ∨ ctx.State_ = WorkerState.Ringing ∨
        ctx.State_ = WorkerState.Disposing := by tauto
    obtain ⟨l, hl⟩ := Worker.TakeCallLoop_calls_first c tid fuel (Worker.workEntry tid ctx) s []
      (ctx.TakingCallThreadId_ == 0)
    rw [Worker.TakeCall, Worker.TakeCallLocked_eq_loop c tid (fuel + 1) s ctx he, hl]
    rcases h with h | h <;> simp [Worker.invocationAt, Worker.workEntry, h]
  · intro h
    obtain ⟨l, hl⟩ := Worker.TakeCallLoop_calls_first c tid fuel (Worker.workEntry tid ctx) s []
      (ctx.TakingCallThreadId_ == 0)
    rw [Worker.TakeCall, Worker.TakeCallLocked_eq_loop c tid (fuel + 1) s ctx (by tauto), hl]
    simp [Worker.invocationAt, Worker.workEntry, h]

/-- Witness of C4: the idle controller entered in `Ringing` and in `Disposing`. -/
theorem takeCall_first_invocation_state_witness :
    ((Worker.TakeCall idleController 7 1 () ⟨WorkerState.Ringing, false, 0⟩).calls.head?).map
        (fun i => i.before.State_) = some WorkerState.Working ∧
    ((Worker.TakeCall idleController 7 1 () ⟨WorkerState.Disposing, false, 0⟩).calls.head?).map
        (fun i => i.before.State_) = some WorkerState.DisposeWorking :=
  ⟨(takeCall_first_invocation_state idleController 7 0 () ⟨WorkerState.Ringing, false, 0⟩).1
      (Or.inr rfl),
    (takeCall_first_invocation_state idleController 7 0 () ⟨WorkerState.Disposing, false, 0⟩).2
      rfl⟩

/-- C1, as stated, fails: from `Sleeping`, `Dispose()` of the idle controller (which calls
`SetToDisposing`) leaves the state `Disposing`, and the very next `Worker::TakeCall` invokes the
controller once and returns `Sleeping`; it does not return `Disposed` after zero invocations. -/
theorem dispose_then_takeCall_counterexample :
    (Worker.Dispose idleController () ⟨WorkerState.Sleeping, false, 0⟩).1.State_ =
      WorkerState.Disposing ∧
    (Worker.TakeCall idleController 7 4 ()
      (Worker.Dispose idleController () ⟨WorkerState.Sleeping, false, 0⟩).1).ret =
      some WorkerState.Sleeping ∧
    (Worker.TakeCall idleController 7 4 ()
      (Worker.Dispose idleController () ⟨WorkerState.Sleeping, false, 0⟩).1).calls.length = 1 ∧
    ¬ ((Worker.TakeCall idleController 7 4 ()
        (Worker.Dispose idleController () ⟨WorkerState.Sleeping, false, 0⟩).1).ret =
        some WorkerState.Disposed ∧
      (Worker.TakeCall idleController 7 4 ()
        (Worker.Dispose idleController () ⟨WorkerState.Sleeping, false, 0⟩).1).calls.length = 0) := by
  decide

/-- C1, amended: starting from `Sleeping`, after `Dispose()` (the controller's `Dispose` calling
`SetToDisposing`) the state is `Disposing`; the very next `Worker::TakeCall` (at least one loop
iteration allowed) invokes the controller's `TakeCall`, the first invocation seeing the state
`DisposeWorking`; and when that first invocation returns `Disposed` or sets the state to
`Disposed`, the `TakeCall` returns `Disposed` after exactly one invocation and leaves the state
`Disposed`. -/
theorem dispose_sleeping_then_takeCall {σ : Type} (c : WorkContentController σ)
    (tid : ThreadIdType) (fuel : Nat) (s : σ) (ctx : WorkContentBase)
    (hs : ctx.State_ = WorkerState.Sleeping)
    (hD : (c.Dispose s ctx).1 = ctx.SetToDisposing.2) :
    (Worker.Dispose c s ctx).1.State_ = WorkerState.Disposing ∧
    ((Worker.TakeCall c tid (fuel + 1) (Worker.Dispose c s ctx).2
        (Worker.Dispose c s ctx).1).calls.head?).map (fun i => i.before.State_) =
      some WorkerState.DisposeWorking ∧
    ((∃ i, (Worker.TakeCall c tid (fuel + 1) (Worker.Dispose c s ctx).2
          (Worker.Dispose c s ctx).1).calls.head? = some i ∧
        (i.result = WorkerState.Disposed ∨ i.after.State_ = WorkerState.Disposed)) →
      (Worker.TakeCall c tid (fuel + 1) (Worker.Dispose c s ctx).2
        (Worker.Dispose c s ctx).1).ret = some WorkerState.Disposed ∧
      (Worker.TakeCall c tid (fuel + 1) (Worker.Dispose c s ctx).2
        (Worker.Dispose c s ctx).1).ctx.State_ = WorkerState.Disposed ∧
      (Worker.TakeCall c tid (fuel + 1) (Worker.Dispose c s ctx).2
        (Worker.Dispose c s ctx).1).calls.length = 1) := by
  have hst : (Worker.Dispose c s ctx).1.State_ = WorkerState.Disposing := by
    obtain ⟨st, a, t⟩ := ctx
    simp only at hs
    subst hs
    rw [Worker.Dispose, hD]
    simp [WorkContentBase.SetToDisposing, WorkerState.disposing_le_iff]
  generalize (Worker.Dispose c s ctx).1 = w at hst ⊢
  generalize (Worker.Dispose c s ctx).2 = s1
  have hloop := Worker.TakeCallLocked_eq_loop c tid (fuel + 1) s1 w (Or.inr (Or.inr hst))
  obtain ⟨l, hl⟩ := Worker.TakeCallLoop_calls_first c tid fuel (Worker.workEntry tid w) s1 []
    (w.TakingCallThreadId_ == 0)
  refine ⟨hst, ?_, ?_⟩
  · rw [Worker.TakeCall, hloop, hl]
    simp [Worker.invocationAt, Worker.workEntry, hst]
  · rw [Worker.TakeCall, hloop]
    rintro ⟨i, hi, hor⟩
    rw [hl] at hi
    simp only [List.nil_append, List.head?_cons, Option.some.injEq] at hi
    subst hi
    simp only [Worker.invocationAt] at hor
    by_cases hd : (c.TakeCall s1 (Worker.workEntry tid w)).2.1.State_ = WorkerState.Disposed
    · rw [Worker.TakeCallLoop_exit_disposed c tid fuel _ s1 [] _ hd]
      simp [WorkContentBase.ClrTakingCallThreadId, hd]
    · have hr : (c.TakeCall s1 (Worker.workEntry tid w)).1 = WorkerState.Disposed := by tauto
      have hw : ¬ ((c.TakeCall s1 (Worker.workEntry tid w)).1 = WorkerState.Working ∨
          (c.TakeCall s1 (Worker.workEntry tid w)).1 = WorkerState.DisposeWorking) := by
        rw [hr]
        decide
      rw [Worker.TakeCallLoop_commit c tid fuel _ s1 [] _ hd hw]
      simp [WorkContentBase.ClrTakingCallThreadId, WorkContentBase.SetWorkerState, hr]

/-- Witness of C1 amended: the retiring controller, disposed while `Sleeping`; its one `TakeCall`
invocation sets the state to `Disposed`. -/
theorem dispose_sleeping_then_takeCall_witness :
    (Worker.TakeCall retiringController 7 1
        (Worker.Dispose retiringController WorkerState.Working
          ⟨WorkerState.Sleeping, false, 0⟩).2
        (Worker.Dispose retiringController WorkerState.Working
          ⟨WorkerState.Sleeping, false, 0⟩).1).ret = some WorkerState.Disposed ∧
    (Worker.TakeCall retiringController 7 1
        (Worker.Dispose retiringController WorkerState.Working
          ⟨WorkerState.Sleeping, false, 0⟩).2
        (Worker.Dispose retiringController WorkerState.Working
          ⟨WorkerState.Sleeping, false, 0⟩).1).ctx.State_ = WorkerState.Disposed ∧
    (Worker.TakeCall retiringController 7 1
        (Worker.Dispose retiringController WorkerState.Working
          ⟨WorkerState.Sleeping, false, 0⟩).2
        (Worker.Dispose retiringController WorkerState.Working
          ⟨WorkerState.Sleeping, false, 0⟩).1).calls.length = 1 :=
  (dispose_sleeping_then_takeCall retiringController 7 0 WorkerState.Working
    ⟨WorkerState.Sleeping, false, 0⟩ rfl rfl).2.2
    ⟨⟨⟨WorkerState.DisposeWorking, false, 7⟩, WorkerState.Working,
        ⟨WorkerState.Disposed, false, 7⟩⟩, by decide, Or.inr rfl⟩

/-- C3: take a `Worker::TakeCall` entered in `Sleeping`, `Ringing` or `Disposing`, and a
controller whose successive `TakeCall` results in it are `r1..rn` (here `rs ++ [rn]`, so
`n = rs.length + 1`), with `r1..r(n-1)` each `Working` or `DisposeWorking` and `rn` neither, and
which in none of these invocations sets the state to `Disposed`.  Then, with at least `n` loop
iterations allowed, the `TakeCall` invokes the controller exactly `n` times (exactly these
invocations), sets the state to `rn` and returns `rn`. -/
theorem takeCall_session {σ : Type} (c : WorkContentController σ) (tid : ThreadIdType)
    (fuel : Nat) (s : σ) (ctx : WorkContentBase) (rs : List WorkerState) (rn : WorkerState)
    (hentry : ctx.State_ = WorkerState.Sleeping ∨ ctx.State_ = WorkerState.Ringing ∨
      ctx.State_ = WorkerState.Disposing)
    (hres : (Worker.successiveCalls c (rs.length + 1) (Worker.workEntry tid ctx) s).map
      (fun i => i.result) = rs ++ [rn])
    (hrs : ∀ r ∈ rs, r = WorkerState.Working ∨ r = WorkerState.DisposeWorking)
    (hrn : rn ≠ WorkerState.Working ∧ rn ≠ WorkerState.DisposeWorking)
    (hnd : ∀ i ∈ Worker.successiveCalls c (rs.length + 1) (Worker.workEntry tid ctx) s,
      i.after.State_ ≠ WorkerState.Disposed)
    (hfuel : rs.length + 1 ≤ fuel) :
    (Worker.TakeCall c tid fuel s ctx).ret = some rn ∧
    (Worker.TakeCall c tid fuel s ctx).calls.length = rs.length + 1 ∧
    (Worker.TakeCall c tid fuel s ctx).calls =
      Worker.successiveCalls c (rs.length + 1) (Worker.workEntry tid ctx) s ∧
    (Worker.TakeCall c tid fuel s ctx).ctx.State_ = rn := by
  have hlen : (Worker.successiveCalls c (rs.length + 1) (Worker.workEntry tid ctx) s).length =
      rs.length + 1 := by
    have := congrArg List.length hres
    simpa using this
  obtain ⟨h1, h2, h3⟩ := Worker.TakeCallLoop_session c tid rs rn fuel (Worker.workEntry tid ctx)
    s [] (ctx.TakingCallThreadId_ == 0) hres hrs (by tauto) hnd hfuel
  rw [Worker.TakeCall, Worker.TakeCallLocked_eq_loop c tid fuel s ctx hentry]
  refine ⟨h1, ?_, ?_, h3⟩
  · rw [h2, List.nil_append, hlen]
  · rw [h2, List.nil_append]

/-- Witness of C3: the scripted controller with results `Working`, `DisposeWorking`, `Ringing`,
entered in `Sleeping`: three invocations, then state and return value `Ringing`. -/
theorem takeCall_session_witness :
    (Worker.TakeCall scriptController 7 5
        [WorkerState.Working, WorkerState.DisposeWorking, WorkerState.Ringing]
        ⟨WorkerState.Sleeping, false, 0⟩).ret = some WorkerState.Ringing ∧
    (Worker.TakeCall scriptController 7 5
        [WorkerState.Working, WorkerState.DisposeWorking, WorkerState.Ringing]
        ⟨WorkerState.Sleeping, false, 0⟩).calls.length = 3 ∧
    (Worker.TakeCall scriptController 7 5
        [WorkerState.Working, WorkerState.DisposeWorking, WorkerState.Ringing]
        ⟨WorkerState.Sleeping, false, 0⟩).ctx.State_ = WorkerState.Ringing :=
  have h := takeCall_session scriptController 7 5
    [WorkerState.Working, WorkerState.DisposeWorking, WorkerState.Ringing]
    ⟨WorkerState.Sleeping, false, 0⟩ [WorkerState.Working, WorkerState.DisposeWorking]
    WorkerState.Ringing (Or.inl rfl) (by decide) (by decide) (by decide) (by decide) (by decide)
  ⟨h.1, h.2.1, h.2.2.2⟩

/-- C5: from `Sleeping`, `SetToRinging()` returns true and the state becomes `Ringing`; a
following single `Worker::TakeCall` (at least one loop iteration allowed) with a controller that
has no more work, that is whose `TakeCall` returns `Sleeping` and does not retire the worker (does
not set the state to `Disposed`), runs the controller exactly once, with the state `Working`,
and then has state `Sleeping` and return value `Sleeping`. -/
theorem ring_then_takeCall {σ : Type} (c : WorkContentController σ) (tid : ThreadIdType)
    (fuel : Nat) (s : σ) (ctx : WorkContentBase)
    (hs : ctx.State_ = WorkerState.Sleeping)
    (hret : (c.TakeCall s (Worker.workEntry tid ctx.SetToRinging.2)).1 = WorkerState.Sleeping)
    (hnd : (c.TakeCall s (Worker.workEntry tid ctx.SetToRinging.2)).2.1.State_ ≠
      WorkerState.Disposed) :
    ctx.SetToRinging.1 = true ∧
    ctx.SetToRinging.2.State_ = WorkerState.Ringing ∧
    (Worker.TakeCall c tid (fuel + 1) s ctx.SetToRinging.2).calls.map
      (fun i => i.before.State_) = [WorkerState.Working] ∧
    (Worker.TakeCall c tid (fuel + 1) s ctx.SetToRinging.2).ctx.State_ = WorkerState.Sleeping ∧
    (Worker.TakeCall c tid (fuel + 1) s ctx.SetToRinging.2).ret = some WorkerState.Sleeping := by
  have hr : ctx.SetToRinging.2.State_ = WorkerState.Ringing := by
    simp [WorkContentBase.SetToRinging, hs]
  have hw : ¬ ((c.TakeCall s (Worker.workEntry tid ctx.SetToRinging.2)).1 = WorkerState.Working ∨
      (c.TakeCall s (Worker.workEntry tid ctx.SetToRinging.2)).1 =
        WorkerState.DisposeWorking) := by
    rw [hret]
    decide
  refine ⟨by simp [WorkContentBase.SetToRinging, hs], hr, ?_⟩
  rw [Worker.TakeCall, Worker.TakeCallLocked_eq_loop c tid (fuel + 1) s _ (Or.inr (Or.inl hr)),
    Worker.TakeCallLoop_commit c tid fuel _ s [] _ hnd hw]
  have hwS : (Worker.workEntry tid ctx.SetToRinging.2).State_ = WorkerState.Working := by
    simp [Worker.workEntry, hr]
  simp [Worker.invocationAt, WorkContentBase.ClrTakingCallThreadId,
    WorkContentBase.SetWorkerState, hret, hwS]

/-- Witness of C5: the idle controller, rung while `Sleeping`. -/
theorem ring_then_takeCall_witness :
    (WorkContentBase.SetToRinging ⟨WorkerState.Sleeping, false, 0⟩).1 = true ∧
    (WorkContentBase.SetToRinging ⟨WorkerState.Sleeping, false, 0⟩).2.State_ =
      WorkerState.Ringing ∧
    (Worker.TakeCall idleController 7 1 ()
      (WorkContentBase.SetToRinging ⟨WorkerState.Sleeping, false, 0⟩).2).calls.map
      (fun i => i.before.State_) = [WorkerState.Working] ∧
    (Worker.TakeCall idleController 7 1 ()
      (WorkContentBase.SetToRinging ⟨WorkerState.Sleeping, false, 0⟩).2).ctx.State_ =
      WorkerState.Sleeping ∧
    (Worker.TakeCall idleController 7 1 ()
      (WorkContentBase.SetToRinging ⟨WorkerState.Sleeping, false, 0⟩).2).ret =
      some WorkerState.Sleeping :=
  ring_then_takeCall idleController 7 0 () ⟨WorkerState.Sleeping, false, 0⟩ rfl rfl
    (by decide)

/-- C9: `Disposed` is absorbing.  When the state is `Disposed`, `SetToRinging`, `SetToDisposing`
and `Worker::TakeCall` all leave it `Disposed`, and `TakeCall` does not invoke the controller.
And, from every entry state and for every loop bound, when some controller invocation of a
`TakeCall` hands the state back as `Disposed`, that `TakeCall` returns `Disposed` and leaves the
state `Disposed`, whatever value the controller returned. -/
theorem disposed_absorbing {σ : Type} (c : WorkContentController σ) (tid : ThreadIdType)
    (fuel : Nat) (s : σ) (ctx : WorkContentBase) :
    (ctx.State_ = WorkerState.Disposed →
      ctx.SetToRinging.2.State_ = WorkerState.Disposed ∧
      ctx.SetToDisposing.2.State_ = WorkerState.Disposed ∧
      (Worker.TakeCall c tid fuel s ctx).ctx.State_ = WorkerState.Disposed ∧
      (Worker.TakeCall c tid fuel s ctx).ret = some WorkerState.Disposed ∧
      (Worker.TakeCall c tid fuel s ctx).calls = []) ∧
    ((∃ i ∈ (Worker.TakeCall c tid fuel s ctx).calls, i.after.State_ = WorkerState.Disposed) →
      (Worker.TakeCall c tid fuel s ctx).ret = some WorkerState.Disposed ∧
      (Worker.TakeCall c tid fuel s ctx).ctx.State_ = WorkerState.Disposed) := by
  constructor
  · intro h
    obtain ⟨st, a, t⟩ := ctx
    simp only at h
    subst h
    simp [WorkContentBase.SetToRinging, WorkContentBase.SetToDisposing, Worker.TakeCall,
      Worker.TakeCallLocked, WorkContentBase.GetWorkerState, WorkerState.disposing_le_iff]
  · intro h
    by_cases hentry : ctx.State_ = WorkerState.Sleeping ∨ ctx.State_ = WorkerState.Ringing ∨
        ctx.State_ = WorkerState.Disposing
    · rw [Worker.TakeCall, Worker.TakeCallLocked_eq_loop c tid fuel s ctx hentry] at h ⊢
      exact Worker.TakeCallLoop_disposed_seen c tid fuel _ s [] _ (by simp) h
    · have hr : ctx.State_ = WorkerState.Working ∨ ctx.State_ = WorkerState.DisposeWorking ∨
          ctx.State_ = WorkerState.Disposed := by
        cases hc : ctx.State_ <;> simp [hc] at hentry ⊢
      obtain ⟨i, hi, _⟩ := h
      obtain ⟨st, a, t⟩ := ctx
      rcases hr with hr | hr | hr <;> simp only at hr <;> subst hr <;>
        simp [Worker.TakeCall, Worker.TakeCallLocked, WorkContentBase.GetWorkerState] at hi

/-- Witness of C9: the retiring controller entered in `Ringing` sets the state to `Disposed` and
returns `Working`; the `TakeCall` returns `Disposed` and leaves the state `Disposed`. -/
theorem disposed_absorbing_witness :
    (Worker.TakeCall retiringController 7 3 WorkerState.Working
      ⟨WorkerState.Ringing, false, 0⟩).ret = some WorkerState.Disposed ∧
    (Worker.TakeCall retiringController 7 3 WorkerState.Working
      ⟨WorkerState.Ringing, false, 0⟩).ctx.State_ = WorkerState.Disposed :=
  (disposed_absorbing retiringController 7 3 WorkerState.Working
    ⟨WorkerState.Ringing, false, 0⟩).2
    ⟨⟨⟨WorkerState.Working, false, 7⟩, WorkerState.Working, ⟨WorkerState.Disposed, false, 7⟩⟩,
      by decide, rfl⟩

/-- A run of the loop in which no invocation hands the state back as `Disposed` returns, when it
returns, the result of its last controller invocation. -/
theorem Worker.TakeCallLoop_ret_last {σ : Type} (c : WorkContentController σ)
    (tid : ThreadIdType) (fuel : Nat) (ctx : WorkContentBase) (s : σ) (tr : List Invocation)
    (ok : Bool) (r : WorkerState)
    (hnd : ∀ i ∈ (Worker.TakeCallLoop c tid fuel ctx s tr ok).calls,
      i.after.State_ ≠ WorkerState.Disposed)
    (h : (Worker.TakeCallLoop c tid fuel ctx s tr ok).ret = some r) :
    ∃ i, (Worker.TakeCallLoop c tid fuel ctx s tr ok).calls.getLast? = some i ∧
      i.result = r := by
  induction fuel generalizing ctx s tr ok with
  | zero => simp [Worker.TakeCallLoop] at h
  | succ n ih =>
    obtain ⟨l, hl⟩ := Worker.TakeCallLoop_calls_first c tid n ctx s tr ok
    have hmem : Worker.invocationAt c s ctx ∈
        (Worker.TakeCallLoop c tid (n + 1) ctx s tr ok).calls := by
      rw [hl]
      simp
    have hd : (c.TakeCall s ctx).2.1.State_ ≠ WorkerState.Disposed := hnd _ hmem
    by_cases hw : (c.TakeCall s ctx).1 = WorkerState.Working ∨
      (c.TakeCall s ctx).1 = WorkerState.DisposeWorking
    · rw [Worker.TakeCallLoop_again c tid n ctx s tr ok hd hw] at hnd h ⊢
      exact ih _ _ _ _ hnd h
    · rw [Worker.TakeCallLoop_commit c tid n ctx s tr ok hd hw] at h ⊢
      simp only [Option.some.injEq] at h
      exact ⟨Worker.invocationAt c s ctx, by simp, h⟩

/-! ## The shutdown path -/

/-- A run of the loop returns exactly when the session ends within the loop bound. -/
theorem Worker.TakeCallLoop_ret_isSome {σ : Type} (c : WorkContentController σ)
    (tid : ThreadIdType) (fuel : Nat) (ctx : WorkContentBase) (s : σ) (tr : List Invocation)
    (ok : Bool) :
    (Worker.TakeCallLoop c tid fuel ctx s tr ok).ret.isSome =
      Worker.sessionEndsWithin c fuel ctx s := by
  induction fuel generalizing ctx s tr ok with
  | zero => rfl
  | succ n ih =>
    by_cases hd : (c.TakeCall s ctx).2.1.State_ = WorkerState.Disposed
    · rw [Worker.TakeCallLoop_exit_disposed c tid n ctx s tr ok hd]
      simp [Worker.sessionEndsWithin, hd]
    · by_cases hw : (c.TakeCall s ctx).1 = WorkerState.Working ∨
        (c.TakeCall s ctx).1 = WorkerState.DisposeWorking
      · rw [Worker.TakeCallLoop_again c tid n ctx s tr ok hd hw, ih]
        simp [Worker.sessionEndsWithin, hd, hw]
      · rw [Worker.TakeCallLoop_commit c tid n ctx s tr ok hd hw]
        simp only [not_or] at hw
        simp [Worker.sessionEndsWithin, hd, hw]

/-- C11: for every entry state and every controller, the value returned by `Worker::TakeCall`
equals the worker state stored at the moment it returns, on every path.  On the refused path
(entry in `Working`, `DisposeWorking` or `Disposed`) it always returns; on the other paths it
returns as soon as the session of the controller ends within the loop bound, through the
`Disposed` early exit or through the commit of the controller's result. -/
theorem takeCall_returns_state {σ : Type} (c : WorkContentController σ) (tid : ThreadIdType)
    (fuel : Nat) (s : σ) (ctx : WorkContentBase) :
    (∀ r, (Worker.TakeCall c tid fuel s ctx).ret = some r →
      (Worker.TakeCall c tid fuel s ctx).ctx.State_ = r) ∧
    ((ctx.State_ = WorkerState.Working ∨ ctx.State_ = WorkerState.DisposeWorking ∨
        ctx.State_ = WorkerState.Disposed) →
      (Worker.TakeCall c tid fuel s ctx).ret =
        some (Worker.TakeCall c tid fuel s ctx).ctx.State_) ∧
    ((ctx.State_ = WorkerState.Sleeping ∨ ctx.State_ = WorkerState.Ringing ∨
        ctx.State_ = WorkerState.Disposing) →
      Worker.sessionEndsWithin c fuel (Worker.workEntry tid ctx) s = true →
      (Worker.TakeCall c tid fuel s ctx).ret =
        some (Worker.TakeCall c tid fuel s ctx).ctx.State_) := by
  have hall : ∀ r, (Worker.TakeCall c tid fuel s ctx).ret = some r →
      (Worker.TakeCall c tid fuel s ctx).ctx.State_ = r := by
    intro r hr
    by_cases hentry : ctx.State_ = WorkerState.Sleeping ∨ ctx.State_ = WorkerState.Ringing ∨
        ctx.State_ = WorkerState.Disposing
    · rw [Worker.TakeCall, Worker.TakeCallLocked_eq_loop c tid fuel s ctx hentry] at hr ⊢
      exact (Worker.TakeCallLoop_ret_state c tid fuel _ s [] _ r hr).1
    · have href : ctx.State_ = WorkerState.Working ∨ ctx.State_ = WorkerState.DisposeWorking ∨
          ctx.State_ = WorkerState.Disposed := by
        cases hc : ctx.State_ <;> simp [hc] at hentry ⊢
      rw [Worker.TakeCall, Worker.TakeCallLocked_refused c tid fuel s ctx href] at hr ⊢
      simpa using hr
  refine ⟨hall, ?_, ?_⟩
  · intro href
    rw [Worker.TakeCall, Worker.TakeCallLocked_refused c tid fuel s ctx href]
  · intro hentry hend
    have hsome : (Worker.TakeCall c tid fuel s ctx).ret.isSome = true := by
      rw [Worker.TakeCall, Worker.TakeCallLocked_eq_loop c tid fuel s ctx hentry,
        Worker.TakeCallLoop_ret_isSome]
      exact hend
    obtain ⟨r, hr⟩ := Option.isSome_iff_exists.1 hsome
    rw [hr, hall r hr]

/-- Witness of C11: the scripted controller entered in `Ringing` ends its session at the second
invocation; the retiring controller takes the `Disposed` early exit; the idle controller is
refused in `Working`. -/
theorem takeCall_returns_state_witness :
    (Worker.TakeCall scriptController 7 4 [WorkerState.Working, WorkerState.Ringing]
        ⟨WorkerState.Ringing, false, 0⟩).ret =
      some (Worker.TakeCall scriptController 7 4 [WorkerState.Working, WorkerState.Ringing]
        ⟨WorkerState.Ringing, false, 0⟩).ctx.State_ ∧
    (Worker.TakeCall retiringController 7 4 WorkerState.Working
        ⟨WorkerState.Sleeping, false, 0⟩).ret =
      some (Worker.TakeCall retiringController 7 4 WorkerState.Working
        ⟨WorkerState.Sleeping, false, 0⟩).ctx.State_ ∧
    (Worker.TakeCall idleController 7 4 () ⟨WorkerState.Working, false, 0⟩).ret =
      some (Worker.TakeCall idleController 7 4 () ⟨WorkerState.Working, false, 0⟩).ctx.State_ :=
  ⟨(takeCall_returns_state scriptController 7 4 [WorkerState.Working, WorkerState.Ringing]
      ⟨WorkerState.Ringing, false, 0⟩).2.2 (Or.inr (Or.inl rfl)) (by decide),
    (takeCall_returns_state retiringController 7 4 WorkerState.Working
      ⟨WorkerState.Sleeping, false, 0⟩).2.2 (Or.inl rfl) (by decide),
    (takeCall_returns_state idleController 7 4 () ⟨WorkerState.Working, false, 0⟩).2.1
      (Or.inl rfl)⟩

/-- C12: `Worker::TakeNap` first performs a `TakeCall`.  If that returns `Disposed`, `TakeNap`
returns `Disposed` without invoking the controller's `TakeNap` and without a second `TakeCall`.
For every other value the first `TakeCall` returns, `TakeNap` invokes the controller's `TakeNap`
exactly once, on what the first `TakeCall` left, performs a second `TakeCall` on what the
controller's `TakeNap` left, and returns the result of that second `TakeCall`. -/
theorem takeNap_spec {σ : Type} (c : WorkContentController σ) (tid : ThreadIdType)
    (fuel : Nat) (s : σ) (ctx : WorkContentBase) :
    (Worker.TakeNap c tid fuel s ctx).first = Worker.TakeCallLocked c tid fuel s ctx ∧
    ((Worker.TakeCallLocked c tid fuel s ctx).ret = some WorkerState.Disposed →
      (Worker.TakeNap c tid fuel s ctx).ret = some WorkerState.Disposed ∧
      (Worker.TakeNap c tid fuel s ctx).naps = 0 ∧
      (Worker.TakeNap c tid fuel s ctx).second = none) ∧
    (∀ r, (Worker.TakeCallLocked c tid fuel s ctx).ret = some r → r ≠ WorkerState.Disposed →
      (Worker.TakeNap c tid fuel s ctx).naps = 1 ∧
      (Worker.TakeNap c tid fuel s ctx).second =
        some (Worker.TakeCallLocked c tid fuel
          (c.TakeNap (Worker.TakeCallLocked c tid fuel s ctx).ctl
            (Worker.TakeCallLocked c tid fuel s ctx).ctx).2
          (c.TakeNap (Worker.TakeCallLocked c tid fuel s ctx).ctl
            (Worker.TakeCallLocked c tid fuel s ctx).ctx).1) ∧
      (Worker.TakeNap c tid fuel s ctx).ret =
        (Worker.TakeCallLocked c tid fuel
          (c.TakeNap (Worker.TakeCallLocked c tid fuel s ctx).ctl
            (Worker.TakeCallLocked c tid fuel s ctx).ctx).2
          (c.TakeNap (Worker.TakeCallLocked c tid fuel s ctx).ctl
            (Worker.TakeCallLocked c tid fuel s ctx).ctx).1).ret) := by
  refine ⟨?_, ?_, ?_⟩
  · simp only [Worker.TakeNap]
    split
    · rfl
    · split <;> rfl
  · intro h
    unfold Worker.TakeNap
    simp [h, WorkerState.disposed_le_iff]
  · intro r h hne
    have hd : ¬ r ≥ WorkerState.Disposed := by
      rw [ge_iff_le, WorkerState.disposed_le_iff]
      exact hne
    unfold Worker.TakeNap
    simp [h, hd]

/-- Witness of C12: the retiring controller entered in `Sleeping` (first result `Disposed`, no
nap), and the idle controller entered in `Ringing` (first result `Sleeping`, one nap, second
`TakeCall`). -/
theorem takeNap_spec_witness :
    ((Worker.TakeNap retiringController 7 4 WorkerState.Working
        ⟨WorkerState.Sleeping, false, 0⟩).ret = some WorkerState.Disposed ∧
      (Worker.TakeNap retiringController 7 4 WorkerState.Working
        ⟨WorkerState.Sleeping, false, 0⟩).naps = 0 ∧
      (Worker.TakeNap retiringController 7 4 WorkerState.Working
        ⟨WorkerState.Sleeping, false, 0⟩).second = none) ∧
    (Worker.TakeNap idleController 7 4 () ⟨WorkerState.Ringing, false, 0⟩).naps = 1 :=
  ⟨(takeNap_spec retiringController 7 4 WorkerState.Working
      ⟨WorkerState.Sleeping, false, 0⟩).2.1 (by decide),
    ((takeNap_spec idleController 7 4 () ⟨WorkerState.Ringing, false, 0⟩).2.2
      WorkerState.Sleeping (by decide) (by decide)).1⟩

/-- A latch that is set stays set, and every further `SetToAsyncTaking()` returns false. -/
theorem Worker.asyncTakingResults_of_set (n : Nat) (w : WorkContentBase)
    (h : w.IsAsyncTaking_ = true) :
    Worker.asyncTakingResults n w = List.replicate n false := by
  induction n with
  | zero => rfl
  | succ n ih =>
    simp [Worker.asyncTakingResults, WorkContentBase.SetToAsyncTaking, h, ih,
      List.replicate_succ]

/-- C13: the async-wake latch is single-flight.  `SetToAsyncTaking()` returns true exactly when
the latch is clear, and always leaves it set; of `n + 1` calls of `SetToAsyncTaking()` in a row
with no `SetAsyncTaken()` between them, every call after the first returns false (and the first
returns true exactly when the latch was clear); after `SetAsyncTaken()` the latch is clear and
the next `SetToAsyncTaking()` returns true again.  Neither operation changes the `WorkerState`
or the thread-affinity marker. -/
theorem asyncTaking_single_flight (w : WorkContentBase) (n : Nat) :
    (w.SetToAsyncTaking.1 = true ↔ w.IsAsyncTaking_ = false) ∧
    w.SetToAsyncTaking.2.IsAsyncTaking_ = true ∧
    Worker.asyncTakingResults (n + 1) w = (!w.IsAsyncTaking_) :: List.replicate n false ∧
    w.SetAsyncTaken.2.IsAsyncTaking_ = false ∧
    (w.SetAsyncTaken.2).SetToAsyncTaking.1 = true ∧
    w.SetToAsyncTaking.2.State_ = w.State_ ∧
    w.SetAsyncTaken.2.State_ = w.State_ ∧
    w.SetToAsyncTaking.2.TakingCallThreadId_ = w.TakingCallThreadId_ ∧
    w.SetAsyncTaken.2.TakingCallThreadId_ = w.TakingCallThreadId_ := by
  have hset : w.SetToAsyncTaking.2.IsAsyncTaking_ = true := by
    obtain ⟨st, a, t⟩ := w
    cases a <;> simp [WorkContentBase.SetToAsyncTaking]
  have hres : Worker.asyncTakingResults (n + 1) w =
      (!w.IsAsyncTaking_) :: List.replicate n false := by
    rw [Worker.asyncTakingResults, Worker.asyncTakingResults_of_set n _ hset]
    obtain ⟨st, a, t⟩ := w
    cases a <;> simp [WorkContentBase.SetToAsyncTaking]
  refine ⟨?_, hset, hres, ?_⟩
  · obtain ⟨st, a, t⟩ := w
    cases a <;> simp [WorkContentBase.SetToAsyncTaking]
  · obtain ⟨st, a, t⟩ := w
    cases a <;> simp [WorkContentBase.SetToAsyncTaking, WorkContentBase.SetAsyncTaken]

/-! ## SendBuffer -/

namespace SendBuffer

/-- C14: `GetState()` returns `NoLink` when the status is `NoLink` and `Preparing` when the
status is `Preparing`, whatever the buffers hold; when the status is `LinkReady` or `Sending` it
returns `BufferEmpty` if both `QueuingBuffer_` and `SendingBuffer_` are empty and
`BufferNotEmpty` otherwise, the same for both statuses. -/
theorem getState_spec (b : SendBuffer) :
    (b.Buffer_.Status_ = BufferStatus.NoLink → b.GetState = SendBufferState.NoLink) ∧
    (b.Buffer_.Status_ = BufferStatus.Preparing → b.GetState = SendBufferState.Preparing) ∧
    ((b.Buffer_.Status_ = BufferStatus.LinkReady ∨ b.Buffer_.Status_ = BufferStatus.Sending) →
      b.GetState =
        if b.Buffer_.QueuingBuffer_ = [] ∧ b.Buffer_.SendingBuffer_ = [] then
          SendBufferState.BufferEmpty
        else SendBufferState.BufferNotEmpty) := by
  obtain ⟨⟨q, sd, st⟩, l, f⟩ := b
  refine ⟨?_, ?_, ?_⟩
  · intro h
    simp only at h
    subst h
    rfl
  · intro h
    simp only at h
    subst h
    rfl
  · intro h
    simp only at h
    rcases h with h | h <;> subst h <;> cases q <;> cases sd <;>
      simp [GetState, BufferImpl.IsEmpty]

/-- Witness of C14: a `Sending` buffer with queued bytes, and a `NoLink` buffer with bytes. -/
theorem getState_spec_witness :
    GetState ⟨⟨[1, 2], [], BufferStatus.Sending⟩, false, []⟩ = SendBufferState.BufferNotEmpty ∧
    GetState ⟨⟨[1, 2], [3], BufferStatus.NoLink⟩, false, []⟩ = SendBufferState.NoLink :=
  ⟨(getState_spec ⟨⟨[1, 2], [], BufferStatus.Sending⟩, false, []⟩).2.2 (Or.inr rfl),
    (getState_spec ⟨⟨[1, 2], [3], BufferStatus.NoLink⟩, false, []⟩).1 rfl⟩

/-- C15: under the precondition that the status is `NoLink`, `SetPreparing()` (whose `assert`
then holds) sets the status to `Preparing` and leaves `QueuingBuffer_` and `SendingBuffer_`
unchanged, so that `GetState()` afterwards returns `Preparing` and `IsNoLink()` returns false. -/
theorem setPreparing_spec (b : SendBuffer) (h : b.Buffer_.Status_ = BufferStatus.NoLink) :
    b.SetPreparing.1 = true ∧
    b.SetPreparing.2.Buffer_.Status_ = BufferStatus.Preparing ∧
    b.SetPreparing.2.Buffer_.QueuingBuffer_ = b.Buffer_.QueuingBuffer_ ∧
    b.SetPreparing.2.Buffer_.SendingBuffer_ = b.Buffer_.SendingBuffer_ ∧
    b.SetPreparing.2.GetState = SendBufferState.Preparing ∧
    b.SetPreparing.2.IsNoLink = false := by
  simp [SetPreparing, GetState, IsNoLink, h]

/-- Witness of C15: `SetPreparing()` on a fresh `SendBuffer`. -/
theorem setPreparing_spec_witness :
    ctor.SetPreparing.1 = true ∧
    ctor.SetPreparing.2.Buffer_.Status_ = BufferStatus.Preparing ∧
    ctor.SetPreparing.2.Buffer_.QueuingBuffer_ = ctor.Buffer_.QueuingBuffer_ ∧
    ctor.SetPreparing.2.Buffer_.SendingBuffer_ = ctor.Buffer_.SendingBuffer_ ∧
    ctor.SetPreparing.2.GetState = SendBufferState.Preparing ∧
    ctor.SetPreparing.2.IsNoLink = false :=
  setPreparing_spec ctor rfl

/-- C16: for every buffer state, `IsEmpty()` is true exactly when both `SendingBuffer_` and
`QueuingBuffer_` are empty, and `IsQueuingRequired()` is true exactly when the status is
`Sending` or `SendingBuffer_` is non-empty or `QueuingBuffer_` is non-empty; hence
`IsQueuingRequired()` false implies `IsEmpty()` true. -/
theorem isEmpty_isQueuingRequired_spec (b : SendBuffer) :
    (b.IsEmpty = true ↔ b.Buffer_.SendingBuffer_ = [] ∧ b.Buffer_.QueuingBuffer_ = []) ∧
    (b.Buffer_.IsQueuingRequired = true ↔
      b.Buffer_.Status_ = BufferStatus.Sending ∨ b.Buffer_.SendingBuffer_ ≠ [] ∨
        b.Buffer_.QueuingBuffer_ ≠ []) ∧
    (b.Buffer_.IsQueuingRequired = false → b.IsEmpty = true) := by
  obtain ⟨⟨q, sd, st⟩, l, f⟩ := b
  cases q <;> cases sd <;> cases st <;>
    simp [IsEmpty, BufferImpl.IsEmpty, BufferImpl.IsQueuingRequired]

/-- Witness of C16: a `LinkReady` buffer with both buffers empty needs no queuing and is
empty. -/
theorem isEmpty_isQueuingRequired_spec_witness :
    IsEmpty ⟨⟨[], [], BufferStatus.LinkReady⟩, false, []⟩ = true :=
  (isEmpty_isQueuingRequired_spec ⟨⟨[], [], BufferStatus.LinkReady⟩, false, []⟩).2.2 rfl

/-- C17: for every prior status and every content of `QueuingBuffer_` and `SendingBuffer_`, after
`SetLinkError(err)` the status is `NoLink` (`IsNoLink()` is true and `GetState()` is `NoLink`)
and `IsEmpty()` is true. -/
theorem setLinkError_spec (b : SendBuffer) (err : ErrC) :
    (b.SetLinkError err).Buffer_.Status_ = BufferStatus.NoLink ∧
    (b.SetLinkError err).IsNoLink = true ∧
    (b.SetLinkError err).GetState = SendBufferState.NoLink ∧
    (b.SetLinkError err).IsEmpty = true := by
  simp [SetLinkError, ClearBuffer, IsNoLink, GetState, IsEmpty, BufferImpl.IsEmpty]

/-- C18: for every data block, `PushSend` called while the status is `NoLink` returns
`PushResult::NotReady`, fails the data with the `no_link` error, and leaves `QueuingBuffer_`,
`SendingBuffer_` and the status unchanged. -/
theorem pushSend_noLink (b : SendBuffer) (src : BufferList)
    (h : b.Buffer_.Status_ = BufferStatus.NoLink) :
    (b.PushSend src).1 = PushResult.NotReady ∧
    (b.PushSend src).2.Failed = b.Failed ++ [(src, ErrC.no_link)] ∧
    (b.PushSend src).2.Buffer_ = b.Buffer_ ∧
    (b.PushSend src).2.Buffer_.QueuingBuffer_ = b.Buffer_.QueuingBuffer_ ∧
    (b.PushSend src).2.Buffer_.SendingBuffer_ = b.Buffer_.SendingBuffer_ ∧
    (b.PushSend src).2.Buffer_.Status_ = b.Buffer_.Status_ := by
  simp [PushSend, PushSendLocked, h]

/-- Witness of C18: three bytes pushed into a fresh `SendBuffer`. -/
theorem pushSend_noLink_witness :
    (ctor.PushSend [1, 2, 3]).1 = PushResult.NotReady ∧
    (ctor.PushSend [1, 2, 3]).2.Failed = ctor.Failed ++ [([1, 2, 3], ErrC.no_link)] ∧
    (ctor.PushSend [1, 2, 3]).2.Buffer_ = ctor.Buffer_ ∧
    (ctor.PushSend [1, 2, 3]).2.Buffer_.QueuingBuffer_ = ctor.Buffer_.QueuingBuffer_ ∧
    (ctor.PushSend [1, 2, 3]).2.Buffer_.SendingBuffer_ = ctor.Buffer_.SendingBuffer_ ∧
    (ctor.PushSend [1, 2, 3]).2.Buffer_.Status_ = ctor.Buffer_.Status_ :=
  pushSend_noLink ctor [1, 2, 3] rfl

/-- A `PushSend` while the drain section is held, on a link that is not `NoLink`, queues. -/
theorem pushSend_locked (b : SendBuffer) (src : BufferList)
    (hs : b.Buffer_.Status_ ≠ BufferStatus.NoLink) (hl : b.ConsumeLocked = true) :
    b.PushSend src = (PushResult.Queuing,
      { b with Buffer_ := { b.Buffer_ with
          QueuingBuffer_ := b.Buffer_.QueuingBuffer_ ++ src } }) := by
  simp [PushSend, PushSendLocked, hs, hl]

/-- A successful `LockForConsume` exposes the non-empty `SendingBuffer_` of a linked buffer and
takes the drain section. -/
theorem lockForConsume_some (b : SendBuffer) (out : DcQueueList)
    (h : b.LockForConsume.1 = some out) :
    out = b.Buffer_.SendingBuffer_ ∧ out ≠ [] ∧ b.ConsumeLocked = false ∧
    (b.Buffer_.Status_ = BufferStatus.LinkReady ∨ b.Buffer_.Status_ = BufferStatus.Sending) ∧
    b.LockForConsume.2 = { b with ConsumeLocked := true } := by
  unfold LockForConsume at h ⊢
  split at h
  · rename_i hc
    obtain ⟨hst, hl, hne⟩ := hc
    simp only [Option.some.injEq] at h
    subst h
    refine ⟨rfl, ?_, hl, hst, ?_⟩
    · intro he
      rw [he] at hne
      simp at hne
    · simp [hst, hl, hne]
  · simp at h

/-- C19: the drain scenario.  On a fresh `SendBuffer`, a `PushSend` (of 100 bytes, or of any
other data `d0`) returns `NotReady`; after `SetLinkReady()` a `PushSend` of 100 bytes `d` returns `New` and
`LockForConsume()` exposes exactly these 100 bytes; after `PopConsumed(40)`, `AfterConsumed`
reports `HasRemain` and the next `LockForConsume()` exposes exactly the remaining 60 bytes; after
`PopConsumed(60)`, with no push in between, `AfterConsumed` reports `BufferEmpty`. -/
theorem drainScenario_spec (d0 d : BufferList) (h : d.length = 100) :
    drainScenario d0 d 40 60 =
      ⟨PushResult.NotReady, PushResult.New, some d, AfterSent.HasRemain, some (d.drop 40),
        AfterSent.BufferEmpty⟩ ∧
    (d.drop 40).length = 60 ∧
    d = d.take 40 ++ d.drop 40 := by
  have hne : d ≠ [] := by
    intro he
    rw [he] at h
    simp at h
  have hlen : (d.drop 40).length = 60 := by
    rw [List.length_drop, h]
  have hne2 : d.drop 40 ≠ [] := by
    intro he
    rw [he] at hlen
    simp at hlen
  have hnil : List.drop 60 (List.drop 40 d) = [] := by
    apply List.drop_eq_nil_of_le
    omega
  refine ⟨?_, hlen, (List.take_append_drop 40 d).symm⟩
  simp [drainScenario, ctor, PushSend, PushSendLocked, SetLinkReady, ClearBuffer,
    LockForConsume, PopConsumed, DcQueueList.PopConsumed, AfterConsumed,
    BufferImpl.IsQueuingRequired, hne, hne2, hnil]

/-- Witness of C19: the scenario with 100 bytes `1` and then 100 bytes `2`. -/
theorem drainScenario_spec_witness :
    drainScenario (List.replicate 100 1) (List.replicate 100 2) 40 60 =
      ⟨PushResult.NotReady, PushResult.New, some (List.replicate 100 2), AfterSent.HasRemain,
        some ((List.replicate 100 2).drop 40), AfterSent.BufferEmpty⟩ :=
  (drainScenario_spec (List.replicate 100 1) (List.replicate 100 2)
    (List.length_replicate 100 2)).1

/-- C20: ordering.  Take a buffer on which `LockForConsume` succeeds, so that a drain is active
until its `AfterConsumed`.  Two `PushSend` calls with data `A` then `B` (not both without bytes)
made during the drain both return `Queuing`; when the drained bytes are all consumed,
`AfterConsumed` returns `NewArrive`, and the next `LockForConsume` exposes what was queued before
the drain followed by the bytes of `A` followed by the bytes of `B`: exactly `A` followed by `B`
when nothing was queued before. -/
theorem queuingScenario_spec (b : SendBuffer) (A B : BufferList) (out : DcQueueList)
    (hlock : b.LockForConsume.1 = some out) (hAB : A ++ B ≠ []) :
    (queuingScenario b A B).exposed1 = some out ∧
    (queuingScenario b A B).pushA = PushResult.Queuing ∧
    (queuingScenario b A B).pushB = PushResult.Queuing ∧
    (queuingScenario b A B).after = AfterSent.NewArrive ∧
    (queuingScenario b A B).exposed2 = some (b.Buffer_.QueuingBuffer_ ++ A ++ B) ∧
    (b.Buffer_.QueuingBuffer_ = [] → (queuingScenario b A B).exposed2 = some (A ++ B)) := by
  obtain ⟨hout, hne, hl, hst, hb1⟩ := lockForConsume_some b out hlock
  have hs : b.Buffer_.Status_ ≠ BufferStatus.NoLink := by
    rcases hst with h | h <;> rw [h] <;> decide
  have hq : b.Buffer_.QueuingBuffer_ ++ A ++ B ≠ [] := by
    rw [List.append_assoc]
    intro he
    exact hAB (List.append_eq_nil.1 he).2
  have hq2 : ¬ (b.Buffer_.QueuingBuffer_ = [] ∧ A = [] ∧ B = []) := by
    rintro ⟨_, ha, hb⟩
    exact hAB (by rw [ha, hb]; rfl)
  have hdrop : List.drop out.length b.Buffer_.SendingBuffer_ = [] := by
    rw [hout]
    exact List.drop_length _
  have key : (queuingScenario b A B) =
      ⟨some out, PushResult.Queuing, PushResult.Queuing, AfterSent.NewArrive,
        some (b.Buffer_.QueuingBuffer_ ++ A ++ B)⟩ := by
    unfold queuingScenario
    simp only [hlock, hb1, Option.getD_some]
    rw [pushSend_locked ⟨b.Buffer_, true, b.Failed⟩ A hs rfl]
    simp only []
    rw [pushSend_locked ⟨⟨b.Buffer_.QueuingBuffer_ ++ A, b.Buffer_.SendingBuffer_,
      b.Buffer_.Status_⟩, true, b.Failed⟩ B hs rfl]
    rcases hst with h | h <;>
      simp [PopConsumed, DcQueueList.PopConsumed, AfterConsumed, LockForConsume, hdrop, hq2, h]
  rw [key]
  refine ⟨rfl, rfl, rfl, rfl, rfl, ?_⟩
  intro he
  simp [he]

/-- Witness of C20: a drain of two bytes on a `Sending` buffer with nothing queued; `A` is
`[3, 4]` and `B` is `[5]`. -/
theorem queuingScenario_spec_witness :
    (queuingScenario ⟨⟨[], [1, 2], BufferStatus.Sending⟩, false, []⟩ [3, 4] [5]).pushA =
      PushResult.Queuing ∧
    (queuingScenario ⟨⟨[], [1, 2], BufferStatus.Sending⟩, false, []⟩ [3, 4] [5]).pushB =
      PushResult.Queuing ∧
    (queuingScenario ⟨⟨[], [1, 2], BufferStatus.Sending⟩, false, []⟩ [3, 4] [5]).after =
      AfterSent.NewArrive ∧
    (queuingScenario ⟨⟨[], [1, 2], BufferStatus.Sending⟩, false, []⟩ [3, 4] [5]).exposed2 =
      some ([3, 4] ++ [5]) :=
  have h := queuingScenario_spec ⟨⟨[], [1, 2], BufferStatus.Sending⟩, false, []⟩ [3, 4] [5]
    [1, 2] rfl (by decide)
  ⟨h.2.1, h.2.2.1, h.2.2.2.1, h.2.2.2.2.2 rfl⟩

/-- A count below `2^31` is converted to `int` unchanged. -/
theorem castToInt_of_lt (n : Nat) (h : n < 2 ^ 31) : castToInt n = (n : Int) := by
  have h1 : n % 2 ^ 32 = n := Nat.mod_eq_of_lt (by omega)
  unfold castToInt
  rw [h1, if_pos h]

/-- The peek reports at most `maxCount` blocks. -/
theorem peekBlockVector_le (blocks : DcQueueList → Nat) (maxCount : Nat) (q : DcQueueList) :
    DcQueueList.PeekBlockVector blocks maxCount q ≤ maxCount :=
  Nat.min_le_right _ _

/-- C22: for a vector whose capacity `maxCount` fits an `int`, `PushSendBlockVector` returns a
negative value exactly when the underlying `PushSend` result is `NotReady`, returns 0 when the
result is `Queuing`, and when the result is `New` returns the number of blocks that
`PeekBlockVector` reports for `SendingBuffer_` (as `PushSend` left it), a value that never
exceeds `maxCount`. -/
theorem pushSendBlockVector_spec (blocks : DcQueueList → Nat) (maxCount : Nat) (b : SendBuffer)
    (src : BufferList) (hmax : maxCount < 2 ^ 31) :
    ((b.PushSendBlockVector blocks maxCount src).1 < 0 ↔
      (b.PushSend src).1 = PushResult.NotReady) ∧
    ((b.PushSend src).1 = PushResult.NotReady →
      (b.PushSendBlockVector blocks maxCount src).1 = -1) ∧
    ((b.PushSend src).1 = PushResult.Queuing →
      (b.PushSendBlockVector blocks maxCount src).1 = 0) ∧
    ((b.PushSend src).1 = PushResult.New →
      (b.PushSendBlockVector blocks maxCount src).1 =
        ((DcQueueList.PeekBlockVector blocks maxCount
          (b.PushSend src).2.Buffer_.SendingBuffer_ : Nat) : Int) ∧
      DcQueueList.PeekBlockVector blocks maxCount (b.PushSend src).2.Buffer_.SendingBuffer_ ≤
        maxCount) ∧
    (b.PushSendBlockVector blocks maxCount src).2 = (b.PushSend src).2 := by
  have hpk : ∀ q, castToInt (DcQueueList.PeekBlockVector blocks maxCount q) =
      ((DcQueueList.PeekBlockVector blocks maxCount q : Nat) : Int) := fun q =>
    castToInt_of_lt _ (lt_of_le_of_lt (peekBlockVector_le blocks maxCount q) hmax)
  simp only [PushSendBlockVector, PushSend]
  cases hr : (b.PushSendLocked src).1 <;>
    simp [CheckPushSendBlockVector, hpk, peekBlockVector_le]

/-- Witness of C22: a vector of 16 elements, every byte a block of its own; three bytes pushed
into a fresh `SendBuffer` (`NotReady`) and into a `LinkReady` one (`New`, three blocks). -/
theorem pushSendBlockVector_spec_witness :
    (PushSendBlockVector (fun q => q.length) 16 ctor [1, 2, 3]).1 = -1 ∧
    (PushSendBlockVector (fun q => q.length) 16 ctor.SetLinkReady [1, 2, 3]).1 =
      ((DcQueueList.PeekBlockVector (fun q => q.length) 16
        (ctor.SetLinkReady.PushSend [1, 2, 3]).2.Buffer_.SendingBuffer_ : Nat) : Int) :=
  ⟨(pushSendBlockVector_spec (fun q => q.length) 16 ctor [1, 2, 3] (by decide)).2.1 rfl,
    ((pushSendBlockVector_spec (fun q => q.length) 16 ctor.SetLinkReady [1, 2, 3]
      (by decide)).2.2.2.1 rfl).1⟩

/-- On a buffer whose status is `NoLink`, `ContSendBlockVector` returns 0, whatever it is asked
to remove: `LockForConsume` yields no buffer and the function falls through to `return 0`. -/
theorem contSendBlockVector_noLink (blocks : DcQueueList → Nat) (maxCount : Nat)
    (b : SendBuffer) (sentBytes : Nat) (h : b.Buffer_.Status_ = BufferStatus.NoLink) :
    (b.ContSendBlockVector blocks maxCount sentBytes).1 = 0 := by
  unfold ContSendBlockVector
  by_cases hs : sentBytes > 0 <;>
    simp [hs, LockForConsume, PopConsumed, h]

/-- For a vector whose capacity fits an `int`, no path of `ContSendBlockVector` returns a
negative value. -/
theorem contSendBlockVector_nonneg (blocks : DcQueueList → Nat) (maxCount : Nat)
    (b : SendBuffer) (sentBytes : Nat) (hmax : maxCount < 2 ^ 31) :
    0 ≤ (b.ContSendBlockVector blocks maxCount sentBytes).1 := by
  have hpk : ∀ q, castToInt (DcQueueList.PeekBlockVector blocks maxCount q) =
      ((DcQueueList.PeekBlockVector blocks maxCount q : Nat) : Int) := fun q =>
    castToInt_of_lt _ (lt_of_le_of_lt (peekBlockVector_le blocks maxCount q) hmax)
  simp only [ContSendBlockVector]
  split
  · simp only [hpk]
    exact Int.natCast_nonneg _
  · exact le_refl _

/-- C23 at the failing input: on a fresh `SendBuffer`, which has no link, with `sentBytes = 0`
and a vector of 16 elements, `ContSendBlockVector` returns 0, not a value below 0. -/
theorem contSendBlockVector_noLink_returns_zero :
    ctor.IsNoLink = true ∧
    (ContSendBlockVector (fun q => q.length) 16 ctor 0).1 = 0 ∧
    ¬ ((ContSendBlockVector (fun q => q.length) 16 ctor 0).1 < 0) := by
  refine ⟨rfl, contSendBlockVector_noLink _ 16 ctor 0 rfl, ?_⟩
  rw [contSendBlockVector_noLink _ 16 ctor 0 rfl]
  decide

end SendBuffer

/-! ## The thread-affinity marker and the loop assertion -/

/-- Every exit of the loop clears the thread-affinity marker. -/
theorem Worker.TakeCallLoop_ret_marker {σ : Type} (c : WorkContentController σ)
    (tid : ThreadIdType) (fuel : Nat) (ctx : WorkContentBase) (s : σ) (tr : List Invocation)
    (ok : Bool) (r : WorkerState)
    (h : (Worker.TakeCallLoop c tid fuel ctx s tr ok).ret = some r) :
    (Worker.TakeCallLoop c tid fuel ctx s tr ok).ctx.TakingCallThreadId_ = 0 := by
  induction fuel generalizing ctx s tr ok with
  | zero => simp [Worker.TakeCallLoop] at h
  | succ n ih =>
    by_cases hd : (c.TakeCall s ctx).2.1.State_ = WorkerState.Disposed
    · rw [Worker.TakeCallLoop_exit_disposed c tid n ctx s tr ok hd]
      rfl
    · by_cases hw : (c.TakeCall s ctx).1 = WorkerState.Working ∨
        (c.TakeCall s ctx).1 = WorkerState.DisposeWorking
      · rw [Worker.TakeCallLoop_again c tid n ctx s tr ok hd hw] at h ⊢
        exact ih _ _ _ _ h
      · rw [Worker.TakeCallLoop_commit c tid n ctx s tr ok hd hw]
        rfl

/-- An invariant of the content the controller is entered with, kept by every invocation of a
run of the loop, holds at every invocation of the run. -/
theorem Worker.TakeCallLoop_before_invariant {σ : Type} (c : WorkContentController σ)
    (tid : ThreadIdType) (P : WorkContentBase → Prop) (fuel : Nat) (ctx : WorkContentBase)
    (s : σ) (tr : List Invocation) (ok : Bool)
    (hctx : P ctx) (htr : ∀ i ∈ tr, P i.before)
    (hkeep : ∀ i ∈ (Worker.TakeCallLoop c tid fuel ctx s tr ok).calls, P i.before → P i.after) :
    ∀ i ∈ (Worker.TakeCallLoop c tid fuel ctx s tr ok).calls, P i.before := by
  induction fuel generalizing ctx s tr ok with
  | zero => simpa [Worker.TakeCallLoop] using htr
  | succ n ih =>
    have htr1 : ∀ i ∈ tr ++ [Worker.invocationAt c s ctx], P i.before := by
      intro i hi
      rcases List.mem_append.1 hi with hi | hi
      · exact htr i hi
      · rw [List.mem_singleton.1 hi]
        exact hctx
    by_cases hd : (c.TakeCall s ctx).2.1.State_ = WorkerState.Disposed
    · rw [Worker.TakeCallLoop_exit_disposed c tid n ctx s tr ok hd]
      exact htr1
    · by_cases hw : (c.TakeCall s ctx).1 = WorkerState.Working ∨
        (c.TakeCall s ctx).1 = WorkerState.DisposeWorking
      · rw [Worker.TakeCallLoop_again c tid n ctx s tr ok hd hw] at hkeep ⊢
        obtain ⟨l, hl⟩ := Worker.TakeCallLoop_calls_append c tid n (c.TakeCall s ctx).2.1
          (c.TakeCall s ctx).2.2 (tr ++ [Worker.invocationAt c s ctx])
          (ok && ((c.TakeCall s ctx).2.1.State_ == WorkerState.Working ||
            (c.TakeCall s ctx).2.1.State_ == WorkerState.DisposeWorking))
        have hmem : Worker.invocationAt c s ctx ∈ (Worker.TakeCallLoop c tid n
            (c.TakeCall s ctx).2.1 (c.TakeCall s ctx).2.2 (tr ++ [Worker.invocationAt c s ctx])
            (ok && ((c.TakeCall s ctx).2.1.State_ == WorkerState.Working ||
              (c.TakeCall s ctx).2.1.State_ == WorkerState.DisposeWorking))).calls := by
          rw [hl]
          simp
        exact ih _ _ _ _ (hkeep _ hmem hctx) htr1 hkeep
      · rw [Worker.TakeCallLoop_commit c tid n ctx s tr ok hd hw]
        exact htr1

/-- The two setters leave `Working` and `DisposeWorking` within these two states. -/
theorem StateSetter.applyAll_working (ops : List StateSetter) (w : WorkContentBase)
    (h : w.State_ = WorkerState.Working ∨ w.State_ = WorkerState.DisposeWorking) :
    (StateSetter.applyAll ops w).State_ = WorkerState.Working ∨
      (StateSetter.applyAll ops w).State_ = WorkerState.DisposeWorking := by
  induction ops generalizing w with
  | nil => exact h
  | cons op ops ih =>
    apply ih
    obtain ⟨st, a, t⟩ := w
    cases op <;> rcases h with h | h <;> simp only at h <;> subst h <;>
      simp [StateSetter.apply, WorkContentBase.SetToRinging, WorkContentBase.SetToDisposing,
        WorkerState.disposing_le_iff]

/-- The content the loop is started with has the state `Working` or `DisposeWorking`. -/
theorem Worker.workEntry_state (tid : ThreadIdType) (ctx : WorkContentBase) :
    (Worker.workEntry tid ctx).State_ = WorkerState.Working ∨
      (Worker.workEntry tid ctx).State_ = WorkerState.DisposeWorking := by
  by_cases h : ctx.State_ = WorkerState.Disposing <;> simp [Worker.workEntry, h]

/-- C24: take a `Worker::TakeCall` on the thread `tid` (a thread id is not the null id) that
enters the work section, that is, is entered in `Sleeping`, `Ringing` or `Disposing`.  When the
marker is clear at entry the `assert` of `SetTakingCallThreadId` holds.  The first controller
invocation sees the marker equal to `tid`, and so does every controller invocation when no
invocation changes the marker: `IsTakingCall()` and `InTakingCallThread()` are true there.  On
every exit path, the `Disposed` early exit included, the marker is clear again, and the
`TakeCall` does exit when the session ends within the loop bound.  The refused path (entry in
`Working`, `DisposeWorking` or `Disposed`) leaves the marker as it is. -/
theorem takeCall_thread_marker {σ : Type} (c : WorkContentController σ) (tid : ThreadIdType)
    (fuel : Nat) (s : σ) (ctx : WorkContentBase) (htid : tid ≠ 0) :
    ((ctx.State_ = WorkerState.Sleeping ∨ ctx.State_ = WorkerState.Ringing ∨
        ctx.State_ = WorkerState.Disposing) →
      (ctx.TakingCallThreadId_ = 0 →
        ∀ st, ((ctx.SetWorkerState st).SetTakingCallThreadId tid).1 = true) ∧
      ((Worker.TakeCall c tid (fuel + 1) s ctx).calls.head?).map
        (fun i => (i.before.IsTakingCall, i.before.InTakingCallThread tid)) =
        some (true, true) ∧
      ((∀ i ∈ (Worker.TakeCall c tid fuel s ctx).calls,
          i.after.TakingCallThreadId_ = i.before.TakingCallThreadId_) →
        ∀ i ∈ (Worker.TakeCall c tid fuel s ctx).calls,
          i.before.TakingCallThreadId_ = tid ∧ i.before.IsTakingCall = true ∧
            i.before.InTakingCallThread tid = true) ∧
      (∀ r, (Worker.TakeCall c tid fuel s ctx).ret = some r →
        (Worker.TakeCall c tid fuel s ctx).ctx.TakingCallThreadId_ = 0 ∧
          (Worker.TakeCall c tid fuel s ctx).ctx.IsTakingCall = false) ∧
      (Worker.sessionEndsWithin c fuel (Worker.workEntry tid ctx) s = true →
        (Worker.TakeCall c tid fuel s ctx).ret.isSome = true ∧
          (Worker.TakeCall c tid fuel s ctx).ctx.IsTakingCall = false)) ∧
    ((ctx.State_ = WorkerState.Working ∨ ctx.State_ = WorkerState.DisposeWorking ∨
        ctx.State_ = WorkerState.Disposed) →
      (Worker.TakeCall c tid fuel s ctx).ctx.TakingCallThreadId_ = ctx.TakingCallThreadId_ ∧
        (Worker.TakeCall c tid fuel s ctx).calls = []) := by
  constructor
  · intro hentry
    have hexit : ∀ r, (Worker.TakeCall c tid fuel s ctx).ret = some r →
        (Worker.TakeCall c tid fuel s ctx).ctx.TakingCallThreadId_ = 0 ∧
          (Worker.TakeCall c tid fuel s ctx).ctx.IsTakingCall = false := by
      intro r hr
      rw [Worker.TakeCall, Worker.TakeCallLocked_eq_loop c tid fuel s ctx hentry] at hr ⊢
      have h0 := Worker.TakeCallLoop_ret_marker c tid fuel _ s [] _ r hr
      exact ⟨h0, by simp [WorkContentBase.IsTakingCall, h0]⟩
    refine ⟨?_, ?_, ?_, hexit, ?_⟩
    · intro h0 st
      simp [WorkContentBase.SetTakingCallThreadId, WorkContentBase.SetWorkerState, h0]
    · obtain ⟨l, hl⟩ := Worker.TakeCallLoop_calls_first c tid fuel (Worker.workEntry tid ctx) s
        [] (ctx.TakingCallThreadId_ == 0)
      rw [Worker.TakeCall, Worker.TakeCallLocked_eq_loop c tid (fuel + 1) s ctx hentry, hl]
      simp [Worker.invocationAt, Worker.workEntry, WorkContentBase.IsTakingCall,
        WorkContentBase.InTakingCallThread, htid]
    · rw [Worker.TakeCall, Worker.TakeCallLocked_eq_loop c tid fuel s ctx hentry]
      intro hkeep i hi
      have hb := Worker.TakeCallLoop_before_invariant c tid
        (fun w => w.TakingCallThreadId_ = tid) fuel (Worker.workEntry tid ctx) s []
        (ctx.TakingCallThreadId_ == 0) rfl (by simp)
        (fun j hj hP => (hkeep j hj).trans hP) i hi
      simp only at hb
      simp [WorkContentBase.IsTakingCall, WorkContentBase.InTakingCallThread, hb, htid]
    · intro hend
      have hsome : (Worker.TakeCall c tid fuel s ctx).ret.isSome = true := by
        rw [Worker.TakeCall, Worker.TakeCallLocked_eq_loop c tid fuel s ctx hentry,
          Worker.TakeCallLoop_ret_isSome]
        exact hend
      obtain ⟨r, hr⟩ := Option.isSome_iff_exists.1 hsome
      exact ⟨hsome, (hexit r hr).2⟩
  · intro href
    rw [Worker.TakeCall, Worker.TakeCallLocked_refused c tid fuel s ctx href]
    exact ⟨rfl, rfl⟩

/-- Witness of C24: the scripted controller on thread 7, entered in `Ringing` with the marker
clear; it is invoked twice and leaves the marker alone. -/
theorem takeCall_thread_marker_witness :
    (∀ i ∈ (Worker.TakeCall scriptController 7 4 [WorkerState.Working, WorkerState.Sleeping]
        ⟨WorkerState.Ringing, false, 0⟩).calls,
      i.before.TakingCallThreadId_ = 7 ∧ i.before.IsTakingCall = true ∧
        i.before.InTakingCallThread 7 = true) ∧
    (Worker.TakeCall scriptController 7 4 [WorkerState.Working, WorkerState.Sleeping]
        ⟨WorkerState.Ringing, false, 0⟩).ret.isSome = true ∧
    (Worker.TakeCall scriptController 7 4 [WorkerState.Working, WorkerState.Sleeping]
        ⟨WorkerState.Ringing, false, 0⟩).ctx.IsTakingCall = false :=
  have h := (takeCall_thread_marker scriptController 7 4
    [WorkerState.Working, WorkerState.Sleeping] ⟨WorkerState.Ringing, false, 0⟩
    (by decide)).1 (Or.inr (Or.inl rfl))
  ⟨h.2.2.1 (by decide), h.2.2.2.2 (by decide)⟩

/-- In a run of the loop in which every invocation hands back the state `Working` or
`DisposeWorking` and the marker it received, started with the marker of the running thread,
every `assert` holds. -/
theorem Worker.TakeCallLoop_assertsOk {σ : Type} (c : WorkContentController σ)
    (tid : ThreadIdType) (fuel : Nat) (ctx : WorkContentBase) (s : σ) (tr : List Invocation)
    (hctx : ctx.TakingCallThreadId_ = tid)
    (hcalls : ∀ i ∈ (Worker.TakeCallLoop c tid fuel ctx s tr true).calls,
      (i.after.State_ = WorkerState.Working ∨ i.after.State_ = WorkerState.DisposeWorking) ∧
        i.after.TakingCallThreadId_ = i.before.TakingCallThreadId_) :
    (Worker.TakeCallLoop c tid fuel ctx s tr true).assertsOk = true := by
  induction fuel generalizing ctx s tr with
  | zero => rfl
  | succ n ih =>
    obtain ⟨l, hl⟩ := Worker.TakeCallLoop_calls_first c tid n ctx s tr true
    have hmem : Worker.invocationAt c s ctx ∈
        (Worker.TakeCallLoop c tid (n + 1) ctx s tr true).calls := by
      rw [hl]
      simp
    obtain ⟨hst, hmk⟩ := hcalls _ hmem
    simp only [Worker.invocationAt] at hst hmk
    have hd : (c.TakeCall s ctx).2.1.State_ ≠ WorkerState.Disposed := by
      rcases hst with h | h <;> rw [h] <;> decide
    have hok : (true && ((c.TakeCall s ctx).2.1.State_ == WorkerState.Working ||
        (c.TakeCall s ctx).2.1.State_ == WorkerState.DisposeWorking)) = true := by
      rcases hst with h | h <;> simp [h]
    by_cases hw : (c.TakeCall s ctx).1 = WorkerState.Working ∨
      (c.TakeCall s ctx).1 = WorkerState.DisposeWorking
    · rw [Worker.TakeCallLoop_again c tid n ctx s tr true hd hw, hok] at hcalls ⊢
      exact ih _ _ _ (hmk.trans hctx) hcalls
    · rw [Worker.TakeCallLoop_commit c tid n ctx s tr true hd hw, hok]
      simp [WorkContentBase.ClrTakingCallThreadId, WorkContentBase.SetWorkerState, hmk, hctx]

/-- C26: take a `Worker::TakeCall` that enters the work section (entry in `Sleeping`, `Ringing`
or `Disposing`) and in which, during every controller invocation, the controller and the
producers that run while it has released the lock change the worker state only through
`SetToRinging()` and `SetToDisposing()`.  Then after every controller invocation the state is
`Working` or `DisposeWorking`, which is what the assertion in the loop asks for; no invocation
leaves the state `Disposed`, so the `Disposed` early exit is never taken and a value the
`TakeCall` returns is the result of its last controller invocation; and when moreover the marker
is clear at entry and no invocation changes it, every `assert` of the run holds. -/
theorem takeCall_setters_only {σ : Type} (c : WorkContentController σ) (tid : ThreadIdType)
    (fuel : Nat) (s : σ) (ctx : WorkContentBase)
    (hentry : ctx.State_ = WorkerState.Sleeping ∨ ctx.State_ = WorkerState.Ringing ∨
      ctx.State_ = WorkerState.Disposing)
    (hset : ∀ i ∈ (Worker.TakeCall c tid fuel s ctx).calls, i.bySettersOnly) :
    (∀ i ∈ (Worker.TakeCall c tid fuel s ctx).calls,
      i.after.State_ = WorkerState.Working ∨ i.after.State_ = WorkerState.DisposeWorking) ∧
    (∀ i ∈ (Worker.TakeCall c tid fuel s ctx).calls, i.after.State_ ≠ WorkerState.Disposed) ∧
    (∀ r, (Worker.TakeCall c tid fuel s ctx).ret = some r →
      ∃ i, (Worker.TakeCall c tid fuel s ctx).calls.getLast? = some i ∧ i.result = r) ∧
    (ctx.TakingCallThreadId_ = 0 →
      (∀ i ∈ (Worker.TakeCall c tid fuel s ctx).calls,
        i.after.TakingCallThreadId_ = i.before.TakingCallThreadId_) →
      (Worker.TakeCall c tid fuel s ctx).assertsOk = true) := by
  rw [Worker.TakeCall, Worker.TakeCallLocked_eq_loop c tid fuel s ctx hentry] at hset ⊢
  have hkeep : ∀ i ∈ (Worker.TakeCallLoop c tid fuel (Worker.workEntry tid ctx) s []
      (ctx.TakingCallThreadId_ == 0)).calls,
      (i.before.State_ = WorkerState.Working ∨ i.before.State_ = WorkerState.DisposeWorking) →
      (i.after.State_ = WorkerState.Working ∨ i.after.State_ = WorkerState.DisposeWorking) := by
    intro i hi hb
    obtain ⟨ops, hops⟩ := hset i hi
    rw [← hops]
    exact StateSetter.applyAll_working ops i.before hb
  have hbefore := Worker.TakeCallLoop_before_invariant c tid
    (fun w => w.State_ = WorkerState.Working ∨ w.State_ = WorkerState.DisposeWorking) fuel
    (Worker.workEntry tid ctx) s [] (ctx.TakingCallThreadId_ == 0)
    (Worker.workEntry_state tid ctx) (by simp) hkeep
  have hafter : ∀ i ∈ (Worker.TakeCallLoop c tid fuel (Worker.workEntry tid ctx) s []
      (ctx.TakingCallThreadId_ == 0)).calls,
      i.after.State_ = WorkerState.Working ∨ i.after.State_ = WorkerState.DisposeWorking :=
    fun i hi => hkeep i hi (hbefore i hi)
  have hnd : ∀ i ∈ (Worker.TakeCallLoop c tid fuel (Worker.workEntry tid ctx) s []
      (ctx.TakingCallThreadId_ == 0)).calls, i.after.State_ ≠ WorkerState.Disposed := by
    intro i hi
    rcases hafter i hi with h | h <;> rw [h] <;> decide
  refine ⟨hafter, hnd, fun r hr => Worker.TakeCallLoop_ret_last c tid fuel _ s [] _ r hnd hr, ?_⟩
  intro h0 hmk
  have hok : (ctx.TakingCallThreadId_ == 0) = true := by simp [h0]
  rw [hok] at hafter hmk ⊢
  exact Worker.TakeCallLoop_assertsOk c tid fuel _ s [] rfl
    (fun i hi => ⟨hafter i hi, hmk i hi⟩)

/-- Witness of C26: the controller that is disposed while it works, entered in `Ringing` with the
marker clear on thread 7; it is invoked twice, each time the state comes back as
`DisposeWorking`, and every `assert` holds. -/
theorem takeCall_setters_only_witness :
    (∀ i ∈ (Worker.TakeCall disposedMeanwhileController 7 4
        [WorkerState.Working, WorkerState.Sleeping] ⟨WorkerState.Ringing, false, 0⟩).calls,
      i.after.State_ = WorkerState.Working ∨ i.after.State_ = WorkerState.DisposeWorking) ∧
    (Worker.TakeCall disposedMeanwhileController 7 4
        [WorkerState.Working, WorkerState.Sleeping]
        ⟨WorkerState.Ringing, false, 0⟩).assertsOk = true :=
  have h := takeCall_setters_only disposedMeanwhileController 7 4
    [WorkerState.Working, WorkerState.Sleeping] ⟨WorkerState.Ringing, false, 0⟩
    (Or.inr (Or.inl rfl))
    (fun i hi => ⟨[StateSetter.SetToDisposing],
      (by decide : ∀ j ∈ (Worker.TakeCall disposedMeanwhileController 7 4
          [WorkerState.Working, WorkerState.Sleeping] ⟨WorkerState.Ringing, false, 0⟩).calls,
        (StateSetter.applyAll [StateSetter.SetToDisposing] j.before).State_ = j.after.State_)
        i hi⟩)
  ⟨h.1, h.2.2.2 rfl (by decide)⟩

/-! ## PkContFeeder -/

/-- C25: `PkContFeeder::CallOnReceived(pk, pksz, seq)`.  While `PkContOnReceived` runs,
`NextSeq_` still has its previous value and `AfterNextSeq_` is `seq + 1` (modulo `2^64`).
Afterwards `NextSeq_` equals the `AfterNextSeq_` left by the handler, which is `seq + 1` modulo
`2^64` when the handler does not change it; `ReceivedCount_` is the count the handler left plus
1 (as a 64-bit counter: modulo `2^64`, so exactly one more below `2^64 - 1`); and
`DroppedCount_` and `LostCount_` are as the handler left them.  For a handler that leaves the
three counters alone, `ReceivedCount_` has grown by exactly 1 and `DroppedCount_` and
`LostCount_` are unchanged. -/
theorem callOnReceived_spec
    (PkContOnReceived : PkContFeeder → List Byte → Nat → SeqT → PkContFeeder)
    (f : PkContFeeder) (pk : List Byte) (pksz : Nat) (seq : SeqT) :
    (f.CallOnReceived PkContOnReceived pk pksz seq).atHandler.NextSeq_ = f.NextSeq_ ∧
    (f.CallOnReceived PkContOnReceived pk pksz seq).atHandler.AfterNextSeq_ =
      (seq + 1) % 2 ^ 64 ∧
    (f.CallOnReceived PkContOnReceived pk pksz seq).afterHandler =
      PkContOnReceived (f.CallOnReceived PkContOnReceived pk pksz seq).atHandler pk pksz seq ∧
    (f.CallOnReceived PkContOnReceived pk pksz seq).final.NextSeq_ =
      (f.CallOnReceived PkContOnReceived pk pksz seq).afterHandler.AfterNextSeq_ ∧
    ((f.CallOnReceived PkContOnReceived pk pksz seq).afterHandler.AfterNextSeq_ =
        (f.CallOnReceived PkContOnReceived pk pksz seq).atHandler.AfterNextSeq_ →
      (f.CallOnReceived PkContOnReceived pk pksz seq).final.NextSeq_ = (seq + 1) % 2 ^ 64) ∧
    (f.CallOnReceived PkContOnReceived pk pksz seq).final.ReceivedCount_ =
      ((f.CallOnReceived PkContOnReceived pk pksz seq).afterHandler.ReceivedCount_ + 1) %
        2 ^ 64 ∧
    (f.CallOnReceived PkContOnReceived pk pksz seq).final.DroppedCount_ =
      (f.CallOnReceived PkContOnReceived pk pksz seq).afterHandler.DroppedCount_ ∧
    (f.CallOnReceived PkContOnReceived pk pksz seq).final.LostCount_ =
      (f.CallOnReceived PkContOnReceived pk pksz seq).afterHandler.LostCount_ ∧
    ((f.CallOnReceived PkContOnReceived pk pksz seq).afterHandler.ReceivedCount_ =
        f.ReceivedCount_ →
      (f.CallOnReceived PkContOnReceived pk pksz seq).afterHandler.DroppedCount_ =
        f.DroppedCount_ →
      (f.CallOnReceived PkContOnReceived pk pksz seq).afterHandler.LostCount_ =
        f.LostCount_ →
      f.ReceivedCount_ + 1 < 2 ^ 64 →
      (f.CallOnReceived PkContOnReceived pk pksz seq).final.ReceivedCount_ =
        f.ReceivedCount_ + 1 ∧
      (f.CallOnReceived PkContOnReceived pk pksz seq).final.DroppedCount_ = f.DroppedCount_ ∧
      (f.CallOnReceived PkContOnReceived pk pksz seq).final.LostCount_ = f.LostCount_) := by
  refine ⟨rfl, rfl, rfl, rfl, ?_, rfl, rfl, rfl, ?_⟩
  · intro h
    show (PkContOnReceived _ pk pksz seq).AfterNextSeq_ = _
    exact h
  · intro hr hd hl hlt
    refine ⟨?_, hd, hl⟩
    show ((PkContOnReceived _ pk pksz seq).ReceivedCount_ + 1) % 2 ^ 64 = _
    have hr1 : (PkContOnReceived { f with AfterNextSeq_ := (seq + 1) % 2 ^ 64 } pk pksz
        seq).ReceivedCount_ = f.ReceivedCount_ := hr
    rw [hr1]
    exact Nat.mod_eq_of_lt hlt

/-- Witness of C25: a handler that skips one sequence number (it adds 1 to `AfterNextSeq_`) and
leaves the counters alone; packet 41 on a feeder that expects 41. -/
theorem callOnReceived_spec_witness :
    (PkContFeeder.CallOnReceived
        (fun g _ _ _ => { g with AfterNextSeq_ := g.AfterNextSeq_ + 1 })
        ⟨41, 10, 2, 3, 0⟩ [] 0 41).final = ⟨43, 11, 2, 3, 43⟩ ∧
    (PkContFeeder.CallOnReceived
        (fun g _ _ _ => { g with AfterNextSeq_ := g.AfterNextSeq_ + 1 })
        ⟨41, 10, 2, 3, 0⟩ [] 0 41).final.ReceivedCount_ = 10 + 1 :=
  ⟨by decide,
    ((callOnReceived_spec (fun g _ _ _ => { g with AfterNextSeq_ := g.AfterNextSeq_ + 1 })
      ⟨41, 10, 2, 3, 0⟩ [] 0 41).2.2.2.2.2.2.2.2 rfl rfl rfl (by decide)).1⟩

/-! ## FieldCharsL -/

theorem memcpy_length (dst src : List Byte) (n : Nat) (hs : n ≤ src.length)
    (hd : n ≤ dst.length) : (memcpy dst src n).length = dst.length := by
  simp [memcpy, List.length_take, Nat.min_eq_left hs]
  omega

theorem memcpy_set_getElem?_lt (dst src : List Byte) (n k : Nat) (b : Byte)
    (hs : n ≤ src.length) (hk : n ≤ k) (i : Nat) (hi : i < n) :
    ((memcpy dst src n).set k b)[i]? = src[i]? := by
  have hne : k ≠ i := by omega
  rw [List.getElem?_set_ne hne, memcpy, List.getElem?_append_left (by simp; omega),
    List.getElem?_take_of_lt hi]

theorem memcpy_set_getElem?_eq (dst src : List Byte) (n k : Nat) (b : Byte)
    (hs : n ≤ src.length) (hd : n ≤ dst.length) (hk : k < dst.length) :
    ((memcpy dst src n).set k b)[k]? = some b := by
  rw [List.getElem?_set_self]
  rw [memcpy_length dst src n hs hd]
  exact hk

theorem memcpy_set_getElem?_ge (dst src : List Byte) (n k : Nat) (b : Byte)
    (hs : n ≤ src.length) (i : Nat) (hi : n ≤ i) (hne : i ≠ k) :
    ((memcpy dst src n).set k b)[i]? = dst[i]? := by
  rw [List.getElem?_set_ne (Ne.symm hne), memcpy,
    List.getElem?_append_right (by simp; omega)]
  simp [List.length_take, Nat.min_eq_left hs]
  congr 1
  omega

theorem memcpy_set_take (dst src : List Byte) (n k : Nat) (b : Byte)
    (hs : n ≤ src.length) (hk : n ≤ k) :
    ((memcpy dst src n).set k b).take n = src.take n := by
  apply List.ext_getElem?
  intro i
  by_cases hi : i < n
  · rw [List.getElem?_take_of_lt hi, List.getElem?_take_of_lt hi]
    exact memcpy_set_getElem?_lt dst src n k b hs hk i hi
  · rw [List.getElem?_eq_none (by simp; omega), List.getElem?_eq_none (by simp; omega)]

/-- A length of at most 255 is stored in a `char` unchanged. -/
theorem castToChar_val (sz : Nat) (h : sz ≤ 255) : (castToChar sz).val = sz := by
  simp only [castToChar]
  omega

namespace FieldCharsL

/-- C27: `FieldCharsL::StrToCell` never fails.  For a field of `Size_` bytes, the text part
`Size_ - 1` being at most 255 bytes as one length byte can tell, and for every value, it returns
`no_error`, copies exactly the first `n = min(|value|, Size_ - 1)` bytes of the value to the
start of the cell, stores `n` in the last byte of the cell (index `Size_ - 1`), and leaves the
bytes at the indexes `n .. Size_ - 2` unchanged; a value longer than `Size_ - 1` is truncated to
its first `Size_ - 1` bytes, with no error. -/
theorem strToCell_spec (f : FieldCharsL) (cell value : List Byte)
    (hsz : 1 ≤ f.Size_) (hmax : f.Size_ - 1 ≤ 255) (hlen : cell.length = f.Size_) :
    (f.StrToCell cell value).1 = OpResult.no_error ∧
    (f.StrToCell cell value).2.length = f.Size_ ∧
    (f.StrToCell cell value).2.take (min value.length (f.Size_ - 1)) =
      value.take (min value.length (f.Size_ - 1)) ∧
    ((f.StrToCell cell value).2[f.Size_ - 1]?).map (fun b => b.val) =
      some (min value.length (f.Size_ - 1)) ∧
    (∀ i, min value.length (f.Size_ - 1) ≤ i → i < f.Size_ - 1 →
      (f.StrToCell cell value).2[i]? = cell[i]?) ∧
    (f.Size_ - 1 < value.length →
      (f.StrToCell cell value).1 = OpResult.no_error ∧
      (f.StrToCell cell value).2.take (f.Size_ - 1) = value.take (f.Size_ - 1) ∧
      ((f.StrToCell cell value).2[f.Size_ - 1]?).map (fun b => b.val) = some (f.Size_ - 1)) := by
  have hn : min value.length (f.Size_ - 1) ≤ value.length := Nat.min_le_left _ _
  have hn2 : min value.length (f.Size_ - 1) ≤ f.Size_ - 1 := Nat.min_le_right _ _
  have hnd : min value.length (f.Size_ - 1) ≤ cell.length := by omega
  have hk : f.Size_ - 1 < cell.length := by omega
  have hlast : ((f.StrToCell cell value).2[f.Size_ - 1]?).map (fun b => b.val) =
      some (min value.length (f.Size_ - 1)) := by
    simp only [StrToCell]
    rw [memcpy_set_getElem?_eq cell value _ _ _ hn hnd hk]
    simp [castToChar_val _ (le_trans hn2 hmax)]
  have htake : (f.StrToCell cell value).2.take (min value.length (f.Size_ - 1)) =
      value.take (min value.length (f.Size_ - 1)) := by
    simp only [StrToCell]
    exact memcpy_set_take cell value _ _ _ hn hn2
  refine ⟨rfl, ?_, htake, hlast, ?_, ?_⟩
  · simp only [StrToCell, List.length_set]
    rw [memcpy_length cell value _ hn hnd, hlen]
  · intro i hi hi2
    simp only [StrToCell]
    exact memcpy_set_getElem?_ge cell value _ _ _ hn i hi (by omega)
  · intro hlong
    have hmin : min value.length (f.Size_ - 1) = f.Size_ - 1 := Nat.min_eq_right (by omega)
    rw [hmin] at htake hlast
    exact ⟨rfl, htake, hlast⟩

/-- Witness of C27: a field of 4 bytes; the value `[1, 2, 3, 4, 5]` is truncated to 3 bytes. -/
theorem strToCell_spec_witness :
    (StrToCell ⟨4⟩ [9, 9, 9, 9] [1, 2, 3, 4, 5]).1 = OpResult.no_error ∧
    (StrToCell ⟨4⟩ [9, 9, 9, 9] [1, 2, 3, 4, 5]).2.take (4 - 1) =
      [1, 2, 3, 4, 5].take (4 - 1) ∧
    ((StrToCell ⟨4⟩ [9, 9, 9, 9] [1, 2, 3, 4, 5]).2[4 - 1]?).map (fun b => b.val) =
      some (4 - 1) :=
  (strToCell_spec ⟨4⟩ [9, 9, 9, 9] [1, 2, 3, 4, 5] (by decide) (by decide) rfl).2.2.2.2.2
    (by decide)

/-- C28: for a `FieldCharsL` with `1 <= Size_ - 1 <= 255` and a cell of `Size_` bytes: `IsNull`
is true after `SetNull`; after `StrToCell(value)`, `IsNull` is true exactly when the value is
empty; and `SetNull` changes only the last byte of the cell. -/
theorem isNull_spec (f : FieldCharsL) (cell value : List Byte)
    (hmin : 1 ≤ f.Size_ - 1) (hmax : f.Size_ - 1 ≤ 255) (hlen : cell.length = f.Size_) :
    f.IsNull (f.SetNull cell).2 = true ∧
    (f.IsNull (f.StrToCell cell value).2 = true ↔ value = []) ∧
    (f.SetNull cell).2.length = cell.length ∧
    (∀ i, i ≠ f.Size_ - 1 → (f.SetNull cell).2[i]? = cell[i]?) := by
  have hk : f.Size_ - 1 < cell.length := by omega
  refine ⟨?_, ?_, ?_, ?_⟩
  · simp [IsNull, SetNull, List.getElem?_set_self hk]
  · have hl := (strToCell_spec f cell value (by omega) hmax hlen).2.2.2.1
    constructor
    · intro h
      simp only [IsNull, beq_iff_eq] at h
      rw [h] at hl
      simp only [Option.map_some', Fin.val_zero, Option.some.injEq] at hl
      have h0 : value.length = 0 := by omega
      exact List.length_eq_zero.1 h0
    · intro h
      subst h
      simp only [List.length_nil, Nat.zero_min] at hl
      simp only [IsNull, beq_iff_eq]
      cases hc : (f.StrToCell cell []).2[f.Size_ - 1]? with
      | none => simp [hc] at hl
      | some b =>
        simp only [hc, Option.map_some', Option.some.injEq] at hl
        exact congrArg some (Fin.ext hl)
  · simp [SetNull]
  · intro i hi
    simp only [SetNull]
    exact List.getElem?_set_ne (Ne.symm hi)

/-- Witness of C28: a field of 4 bytes. -/
theorem isNull_spec_witness :
    IsNull ⟨4⟩ (SetNull ⟨4⟩ [1, 2, 3, 3]).2 = true ∧
    (IsNull ⟨4⟩ (StrToCell ⟨4⟩ [1, 2, 3, 3] [7]).2 = true ↔ ([7] : List Byte) = []) :=
  ⟨(isNull_spec ⟨4⟩ [1, 2, 3, 3] [7] (by decide) (by decide) rfl).1,
    (isNull_spec ⟨4⟩ [1, 2, 3, 3] [7] (by decide) (by decide) rfl).2.1⟩

/-- C29: `FieldCharsL::PutNumber`, for a field with `Size_ - 1` at most 255 and a cell of `Size_`
bytes, returns `value_overflow` exactly when the decimal text of `(num, decScale)` is longer than
`Size_ - 1` characters, and then leaves every byte of the cell unchanged; otherwise it returns
`no_error`, writes the text at the start of the cell and its length in the last byte of the
cell. -/
theorem putNumber_spec (DecToStrRev : Int → Nat → List Byte) (f : FieldCharsL)
    (cell : List Byte) (num : Int) (decScale : Nat)
    (hsz : 1 ≤ f.Size_) (hmax : f.Size_ - 1 ≤ 255) (hlen : cell.length = f.Size_) :
    ((f.PutNumber DecToStrRev cell num decScale).1 = OpResult.value_overflow ↔
      (DecToStrRev num decScale).length > f.Size_ - 1) ∧
    ((DecToStrRev num decScale).length > f.Size_ - 1 →
      (f.PutNumber DecToStrRev cell num decScale).2 = cell) ∧
    (¬ (DecToStrRev num decScale).length > f.Size_ - 1 →
      (f.PutNumber DecToStrRev cell num decScale).1 = OpResult.no_error ∧
      (f.PutNumber DecToStrRev cell num decScale).2.length = f.Size_ ∧
      (f.PutNumber DecToStrRev cell num decScale).2.take (DecToStrRev num decScale).length =
        DecToStrRev num decScale ∧
      ((f.PutNumber DecToStrRev cell num decScale).2[f.Size_ - 1]?).map (fun b => b.val) =
        some (DecToStrRev num decScale).length) := by
  by_cases hov : (DecToStrRev num decScale).length > f.Size_ - 1
  · simp [PutNumber, hov]
  · have hle : (DecToStrRev num decScale).length ≤ f.Size_ - 1 := by omega
    have hnd : (DecToStrRev num decScale).length ≤ cell.length := by omega
    have hk : f.Size_ - 1 < cell.length := by omega
    refine ⟨by simp [PutNumber, hov], fun h => absurd h hov, fun _ => ?_⟩
    simp only [PutNumber, hov, if_false]
    refine ⟨trivial, ?_, ?_, ?_⟩
    · rw [List.length_set, memcpy_length cell _ _ (le_refl _) hnd, hlen]
    · rw [memcpy_set_take cell _ _ _ _ (le_refl _) hle, List.take_length]
    · rw [memcpy_set_getElem?_eq cell _ _ _ _ (le_refl _) hnd hk]
      simp [castToChar_val _ (le_trans hle hmax)]

/-- Witness of C29: a field of 4 bytes; a text of four characters overflows and leaves the cell
as it is, a text of two characters is written. -/
theorem putNumber_spec_witness :
    (PutNumber (fun _ _ => [49, 50, 51, 52]) ⟨4⟩ [9, 9, 9, 9] 1234 0).2 = [9, 9, 9, 9] ∧
    (PutNumber (fun _ _ => [49, 50]) ⟨4⟩ [9, 9, 9, 9] 12 0).1 = OpResult.no_error :=
  ⟨(putNumber_spec (fun _ _ => [49, 50, 51, 52]) ⟨4⟩ [9, 9, 9, 9] 1234 0 (by decide)
      (by decide) rfl).2.1 (by decide),
    ((putNumber_spec (fun _ _ => [49, 50]) ⟨4⟩ [9, 9, 9, 9] 12 0 (by decide)
      (by decide) rfl).2.2 (by decide)).1⟩

end FieldCharsL

end fon9

/-! ## ExgMcSystem -/

namespace f9twf

/-- C30: `ExgMcSystem::CheckTDayYYYYMMDD(tm)` returns the calendar date (`YYYYMMDD`) of `tm` when
the time of day `HHMMSS(tm)` is at least `ClearHHMMSS_`, and the calendar date of `tm` minus one
day when `HHMMSS(tm)` is below `ClearHHMMSS_`; with `ClearHHMMSS_ = 0` it always returns the date
of `tm`. -/
theorem checkTDayYYYYMMDD_spec (t : TimeFns) (sys : ExgMcSystem) (tm : TimeStamp) :
    (t.GetHHMMSS tm ≥ sys.ClearHHMMSS_ →
      sys.CheckTDayYYYYMMDD t tm = t.GetYYYYMMDD tm) ∧
    (t.GetHHMMSS tm < sys.ClearHHMMSS_ →
      sys.CheckTDayYYYYMMDD t tm = t.GetYYYYMMDD (tm - t.TimeInterval_Day 1)) ∧
    (sys.ClearHHMMSS_ = 0 → sys.CheckTDayYYYYMMDD t tm = t.GetYYYYMMDD tm) := by
  refine ⟨?_, ?_, ?_⟩
  · intro h
    have hn : ¬ t.GetHHMMSS tm < sys.ClearHHMMSS_ := by omega
    simp [ExgMcSystem.CheckTDayYYYYMMDD, hn]
  · intro h
    simp [ExgMcSystem.CheckTDayYYYYMMDD, h]
  · intro h
    simp [ExgMcSystem.CheckTDayYYYYMMDD, h]

/-- Witness of C30: with the clear time 05:00:00, the timestamp 2000-03-01 01:00:00 belongs to
the day 2000-02-29, and the timestamp 2000-03-01 06:00:00 to the day 2000-03-01. -/
theorem checkTDayYYYYMMDD_spec_witness :
    ExgMcSystem.CheckTDayYYYYMMDD secondsTimeFns ⟨50000, 0⟩ 951872400 =
      secondsTimeFns.GetYYYYMMDD (951872400 - secondsTimeFns.TimeInterval_Day 1) ∧
    ExgMcSystem.CheckTDayYYYYMMDD secondsTimeFns ⟨50000, 0⟩ 951890400 =
      secondsTimeFns.GetYYYYMMDD 951890400 :=
  ⟨(checkTDayYYYYMMDD_spec secondsTimeFns ⟨50000, 0⟩ 951872400).2.1 (by decide),
    (checkTDayYYYYMMDD_spec secondsTimeFns ⟨50000, 0⟩ 951890400).1 (by decide)⟩

end f9twf
